import Mathlib

/-!
# RendaHomes contract bookkeeping: a shallow embedding

This file embeds the accounting core of the RendaHomes Solidity contracts
(`HRMToken.sol`, `PropertyToken.sol`, `RendaGovernance`, `DisasterManagement.sol`)
as executable Lean functions, and proves properties of the embedded operations.

Modelling conventions:
* Addresses are `Nat`; the zero address is `0`.
* `uint256` values are `Nat` (amounts in this system are bounded far below
  `2^256` by the token supply cap, so checked-arithmetic overflow is not a
  reachable failure mode and is not modelled).
* A public contract call is a function `State → args → Option State`:
  `none` models an EVM revert, which rolls back every write of the call, so a
  failed call leaves the caller with the unchanged pre-call state.
* OpenZeppelin library behaviour that the contracts inherit is embedded where
  it affects the call result: `_transfer`/`_mint`/`_burn` zero-address checks,
  the `_beforeTokenTransfer` hook with its `whenNotPaused` modifier (the hook
  runs on transfers, mints and burns alike), `_spendAllowance`, `Ownable`,
  and Solidity's revert-on-division-by-zero.
* ERC721 bookkeeping of `PropertyToken` (`_safeMint`, `_setTokenURI`) is
  orthogonal to every property below and is not carried in the state.
-/

namespace RendaHomes

/-! ## Data model and operations (shallow embedding of the contracts) -/

/-- Pointwise update of an account-indexed map. -/
def setBal (b : Nat → Nat) (a v : Nat) : Nat → Nat :=
  fun x => if x = a then v else b x

/-- Move `amt` from `src` to `dst` (the `balances[src] -= amt; balances[dst] += amt`
pattern of OpenZeppelin `_transfer`; correct also when `src = dst`). -/
def move (b : Nat → Nat) (src dst amt : Nat) : Nat → Nat :=
  let b1 := setBal b src (b src - amt)
  setBal b1 dst (b1 dst + amt)

/-- Update of an (owner, spender)-indexed allowance map. -/
def setAllow (al : Nat → Nat → Nat) (o sp v : Nat) : Nat → Nat → Nat :=
  fun x y => if x = o ∧ y = sp then v else al x y

/-- State of the `HRMToken` ERC20 contract: balances, allowances, total supply
and the `Pausable` flag. -/
structure ERC20State where
  balances : Nat → Nat
  allowances : Nat → Nat → Nat
  totalSupply : Nat
  paused : Bool

/-- `HRMToken.MAX_SUPPLY = 1000000000 * 10**18`. -/
def MAX_SUPPLY : Nat := 1000000000 * 10 ^ 18

/-- OpenZeppelin `ERC20._transfer` as inherited by `HRMToken`: zero-address
checks, then the `_beforeTokenTransfer` hook (which `HRMToken` overrides with
`whenNotPaused`), then the balance check and the balance move. -/
def erc20Transfer (s : ERC20State) (src dst amt : Nat) : Option ERC20State :=
  if src = 0 then none
  else if dst = 0 then none
  else if s.paused then none
  else if s.balances src < amt then none
  else some { s with balances := move s.balances src dst amt }

/-- `ERC20.transferFrom(src, dst, amt)` called by `spender`:
`_spendAllowance` (allowance check and decrement) followed by `_transfer`. -/
def erc20TransferFrom (s : ERC20State) (spender src dst amt : Nat) : Option ERC20State :=
  if s.allowances src spender < amt then none
  else
    match erc20Transfer s src dst amt with
    | none => none
    | some s' =>
        some { s' with allowances := setAllow s'.allowances src spender (s.allowances src spender - amt) }

/-- `ERC20.approve(spender, amt)` called by `caller`: `_approve` zero-address
checks, then the allowance overwrite.  No pause interaction. -/
def erc20Approve (s : ERC20State) (caller spender amt : Nat) : Option ERC20State :=
  if caller = 0 then none
  else if spender = 0 then none
  else some { s with allowances := setAllow s.allowances caller spender amt }

/-- `HRMToken.mint(to, amount)`: the supply-cap check, then OpenZeppelin
`_mint` (zero-address check, `_beforeTokenTransfer` hook — which `HRMToken`
guards with `whenNotPaused` — supply and balance increments). -/
def hrmMint (s : ERC20State) (dst amt : Nat) : Option ERC20State :=
  if MAX_SUPPLY < s.totalSupply + amt then none
  else if dst = 0 then none
  else if s.paused then none
  else some { s with
    balances := setBal s.balances dst (s.balances dst + amt)
    totalSupply := s.totalSupply + amt }

/-- `ERC20Burnable.burn(amount)` called by `caller`: OpenZeppelin
`_burn(caller, amount)` (zero-address check, the paused-guarded
`_beforeTokenTransfer` hook, balance check, supply and balance decrements). -/
def hrmBurn (s : ERC20State) (caller amt : Nat) : Option ERC20State :=
  if caller = 0 then none
  else if s.paused then none
  else if s.balances caller < amt then none
  else some { s with
    balances := setBal s.balances caller (s.balances caller - amt)
    totalSupply := s.totalSupply - amt }

/-- `PropertyToken.PropertyType`. -/
inductive PropertyType where
  | Residential | Commercial | Industrial | Mixed
deriving DecidableEq, Repr

/-- `PropertyToken.RiskLevel`. -/
inductive RiskLevel where
  | Low | Medium | High
deriving DecidableEq, Repr

/-- `PropertyToken.Property`. -/
structure Property where
  id : Nat
  metadataURI : String
  totalValue : Nat
  totalTokens : Nat
  availableTokens : Nat
  tokenPrice : Nat
  propertyOwner : Nat
  isActive : Bool
  isVerified : Bool
  createdAt : Nat
  propertyType : PropertyType
  riskLevel : RiskLevel
deriving DecidableEq, Repr

/-- A never-written slot of the `properties` mapping (Solidity default record). -/
def defaultProperty : Property :=
  { id := 0, metadataURI := "", totalValue := 0, totalTokens := 0
    availableTokens := 0, tokenPrice := 0, propertyOwner := 0
    isActive := false, isVerified := false, createdAt := 0
    propertyType := PropertyType.Residential, riskLevel := RiskLevel.Low }

/-- `PropertyToken.Investment`. -/
structure Investment where
  investor : Nat
  tokensOwned : Nat
  investmentAmount : Nat
  purchaseDate : Nat
deriving DecidableEq, Repr

/-- A never-written slot of the `investments` mapping. -/
def defaultInvestment : Investment :=
  { investor := 0, tokensOwned := 0, investmentAmount := 0, purchaseDate := 0 }

/-- `PropertyToken.SellOrder`. -/
structure SellOrder where
  id : Nat
  propertyId : Nat
  seller : Nat
  tokensForSale : Nat
  pricePerToken : Nat
  totalPrice : Nat
  isActive : Bool
  createdAt : Nat
  expiresAt : Nat
deriving DecidableEq, Repr

/-- A never-written slot of the `sellOrders` mapping. -/
def defaultSellOrder : SellOrder :=
  { id := 0, propertyId := 0, seller := 0, tokensForSale := 0, pricePerToken := 0
    totalPrice := 0, isActive := false, createdAt := 0, expiresAt := 0 }

/-- State of the `PropertyToken` contract, together with the `HRMToken` ledger
it settles payments on.  `thisAddr` is `address(this)` of `PropertyToken`;
`contractOwner` is its `Ownable` owner. -/
structure PTState where
  hrm : ERC20State
  thisAddr : Nat
  contractOwner : Nat
  feeRecipient : Nat
  platformFeePercent : Nat
  tokenIdCounter : Nat
  properties : Nat → Property
  investments : Nat → Nat → Investment
  propertyInvestors : Nat → List Nat
  investorProperties : Nat → List Nat
  sellOrders : Nat → SellOrder
  propertySellOrders : Nat → List Nat
  userSellOrders : Nat → List Nat
  sellOrderCounter : Nat

attribute [ext] ERC20State PTState

/-- `PropertyToken.MIN_INVESTMENT = 100 * 10**18`. -/
def MIN_INVESTMENT : Nat := 100 * 10 ^ 18

/-- Update one slot of the `properties` mapping. -/
def setProp (f : Nat → Property) (i : Nat) (p : Property) : Nat → Property :=
  fun j => if j = i then p else f j

/-- Update one slot of the `investments` double mapping. -/
def setInv (f : Nat → Nat → Investment) (pid a : Nat) (v : Investment) :
    Nat → Nat → Investment :=
  fun i x => if i = pid ∧ x = a then v else f i x

/-- Update one slot of the `sellOrders` mapping. -/
def setOrder (f : Nat → SellOrder) (i : Nat) (o : SellOrder) : Nat → SellOrder :=
  fun j => if j = i then o else f j

/-- Append `v` to the list at key `k` of a list-valued mapping. -/
def pushAt (f : Nat → List Nat) (k v : Nat) : Nat → List Nat :=
  fun j => if j = k then f k ++ [v] else f j

/-- `PropertyToken.listProperty`, called by `caller` at time `now`.
Returns the new state and the new property id. -/
def listProperty (s : PTState) (caller : Nat) (uri : String) (totalValue totalTokens : Nat)
    (ptype : PropertyType) (risk : RiskLevel) (now : Nat) : Option (PTState × Nat) :=
  if totalValue = 0 then none
  else if totalTokens = 0 then none
  else
    let pid := s.tokenIdCounter
    let price := totalValue / totalTokens
    some ({ s with
      tokenIdCounter := pid + 1
      properties := setProp s.properties pid
        { id := pid, metadataURI := uri, totalValue := totalValue
          totalTokens := totalTokens, availableTokens := totalTokens
          tokenPrice := price, propertyOwner := caller
          isActive := false, isVerified := false, createdAt := now
          propertyType := ptype, riskLevel := risk } }, pid)

/-- `PropertyToken.verifyProperty`: `onlyOwner`, `propertyExists`, then sets
`isVerified := true` and `isActive := true`. -/
def verifyProperty (s : PTState) (caller pid : Nat) : Option PTState :=
  if caller ≠ s.contractOwner then none
  else if s.tokenIdCounter ≤ pid then none
  else some { s with
    properties := setProp s.properties pid
      { s.properties pid with isVerified := true, isActive := true } }

/-- `PropertyToken.purchaseTokens(propertyId, tokens)` called by `caller` at
time `now`: the modifier and `require` checks, the fee split, the three HRM
transfers, then the investment-record and `availableTokens` updates. -/
def purchaseTokens (s : PTState) (caller pid tokens now : Nat) : Option PTState :=
  if s.tokenIdCounter ≤ pid then none
  else if ¬ (s.properties pid).isActive then none
  else if tokens = 0 then none
  else if (s.properties pid).availableTokens < tokens then none
  else
    let cost := tokens * (s.properties pid).tokenPrice
    if cost < MIN_INVESTMENT then none
    else if s.hrm.balances caller < cost then none
    else
      let fee := cost * s.platformFeePercent / 10000
      let net := cost - fee
      match erc20TransferFrom s.hrm s.thisAddr caller s.thisAddr cost with
      | none => none
      | some h1 =>
        match erc20Transfer h1 s.thisAddr s.feeRecipient fee with
        | none => none
        | some h2 =>
          match erc20Transfer h2 s.thisAddr (s.properties pid).propertyOwner net with
          | none => none
          | some h3 =>
            let inv0 := s.investments pid caller
            let pInv := if inv0.investor = 0 then pushAt s.propertyInvestors pid caller
              else s.propertyInvestors
            let iProps := if inv0.investor = 0 then pushAt s.investorProperties caller pid
              else s.investorProperties
            some { s with
              hrm := h3
              propertyInvestors := pInv
              investorProperties := iProps
              investments := setInv s.investments pid caller
                { investor := caller
                  tokensOwned := inv0.tokensOwned + tokens
                  investmentAmount := inv0.investmentAmount + net
                  purchaseDate := now }
              properties := setProp s.properties pid
                { s.properties pid with
                  availableTokens := (s.properties pid).availableTokens - tokens } }

/-- `PropertyToken.createSellOrder` called by `caller` at time `now`.
Returns the new state and the new order id.  Shares are not escrowed: only the
seller's current holding is checked. -/
def createSellOrder (s : PTState) (caller pid tokensForSale pricePerToken durationDays now : Nat) :
    Option (PTState × Nat) :=
  if s.tokenIdCounter ≤ pid then none
  else if tokensForSale = 0 then none
  else if pricePerToken = 0 then none
  else if durationDays = 0 then none
  else if 90 < durationDays then none
  else if (s.investments pid caller).tokensOwned < tokensForSale then none
  else
    let oid := s.sellOrderCounter
    some ({ s with
      sellOrderCounter := oid + 1
      sellOrders := setOrder s.sellOrders oid
        { id := oid, propertyId := pid, seller := caller
          tokensForSale := tokensForSale, pricePerToken := pricePerToken
          totalPrice := tokensForSale * pricePerToken, isActive := true
          createdAt := now, expiresAt := now + durationDays * 86400 }
      propertySellOrders := pushAt s.propertySellOrders pid oid
      userSellOrders := pushAt s.userSellOrders caller oid }, oid)

/-- `PropertyToken.buyFromOrder(orderId, tokensToBuy)` called by `caller` at
time `now`: the `require` checks — including the fulfilment-time re-check of
the seller's current holding — then `_processBuyOrderPayment`,
`_updateBuyOrderInvestments`, and the sell-order update. -/
def buyFromOrder (s : PTState) (caller oid tokensToBuy now : Nat) : Option PTState :=
  let order := s.sellOrders oid
  if ¬ order.isActive then none
  else if order.expiresAt < now then none
  else if tokensToBuy = 0 then none
  else if order.tokensForSale < tokensToBuy then none
  else if caller = order.seller then none
  else if (s.investments order.propertyId order.seller).tokensOwned < tokensToBuy then none
  else
    let totalCost := tokensToBuy * order.pricePerToken
    if s.hrm.balances caller < totalCost then none
    else
      let fee := totalCost * s.platformFeePercent / 10000
      let net := totalCost - fee
      match erc20TransferFrom s.hrm s.thisAddr caller s.thisAddr totalCost with
      | none => none
      | some h1 =>
        match erc20Transfer h1 s.thisAddr s.feeRecipient fee with
        | none => none
        | some h2 =>
          match erc20Transfer h2 s.thisAddr order.seller net with
          | none => none
          | some h3 =>
            let invS := s.investments order.propertyId order.seller
            let invB := s.investments order.propertyId caller
            let i1 := setInv s.investments order.propertyId order.seller
              { invS with tokensOwned := invS.tokensOwned - tokensToBuy }
            let pInv := if invB.investor = 0 then pushAt s.propertyInvestors order.propertyId caller
              else s.propertyInvestors
            let iProps := if invB.investor = 0 then pushAt s.investorProperties caller order.propertyId
              else s.investorProperties
            let remaining := order.tokensForSale - tokensToBuy
            some { s with
              hrm := h3
              propertyInvestors := pInv
              investorProperties := iProps
              investments := setInv i1 order.propertyId caller
                { investor := caller
                  tokensOwned := invB.tokensOwned + tokensToBuy
                  investmentAmount := invB.investmentAmount + net
                  purchaseDate := now }
              sellOrders := setOrder s.sellOrders oid
                { order with
                  tokensForSale := remaining
                  isActive := if remaining = 0 then false else order.isActive } }

/-- `PropertyToken.cancelSellOrder`: seller-or-owner authorization, the active
check, then `isActive := false`. -/
def cancelSellOrder (s : PTState) (caller oid : Nat) : Option PTState :=
  let order := s.sellOrders oid
  if caller ≠ order.seller ∧ caller ≠ s.contractOwner then none
  else if ¬ order.isActive then none
  else some { s with
    sellOrders := setOrder s.sellOrders oid { order with isActive := false } }

/-- The loop body of `distributeRentalIncome`: walk the investor index, and for
each investor with a positive holding transfer
`totalIncome * tokensOwned / totalDistributed` HRM out of the contract.
Solidity reverts on division by zero, modelled by the explicit
`totalDistributed = 0` guard. -/
def distribLoop (thisA pid : Nat) (inv : Nat → Nat → Investment)
    (totalIncome totalDistributed : Nat) :
    List Nat → ERC20State → Option ERC20State
  | [], h => some h
  | a :: rest, h =>
    let owned := (inv pid a).tokensOwned
    if 0 < owned then
      if totalDistributed = 0 then none
      else
        match erc20Transfer h thisA a (totalIncome * owned / totalDistributed) with
        | none => none
        | some h' => distribLoop thisA pid inv totalIncome totalDistributed rest h'
    else distribLoop thisA pid inv totalIncome totalDistributed rest h

/-- `PropertyToken.distributeRentalIncome(propertyId, totalIncome)` called by
`caller`: `onlyOwner`, `propertyExists`, the positivity and contract-balance
checks, then the pro-rata payout loop over the property's investor index. -/
def distributeRentalIncome (s : PTState) (caller pid totalIncome : Nat) : Option PTState :=
  if caller ≠ s.contractOwner then none
  else if s.tokenIdCounter ≤ pid then none
  else if totalIncome = 0 then none
  else if s.hrm.balances s.thisAddr < totalIncome then none
  else
    let totalDistributed := (s.properties pid).totalTokens - (s.properties pid).availableTokens
    match distribLoop s.thisAddr pid s.investments totalIncome totalDistributed
        (s.propertyInvestors pid) s.hrm with
    | none => none
    | some h => some { s with hrm := h }

/-- `RendaGovernance.Proposal`. -/
structure Proposal where
  id : Nat
  title : String
  description : String
  proposer : Nat
  votesFor : Nat
  votesAgainst : Nat
  startTime : Nat
  endTime : Nat
  executed : Bool
  passed : Bool
deriving DecidableEq, Repr

/-- `RendaGovernance.Vote`. -/
structure GovVote where
  hasVoted : Bool
  support : Bool
  votingPower : Nat
deriving DecidableEq, Repr

/-- State of the `RendaGovernance` contract, with the HRM ledger it reads
voting power and total supply from. -/
structure GovState where
  hrm : ERC20State
  proposalCount : Nat
  proposals : Nat → Proposal
  votes : Nat → Nat → GovVote

/-- `RendaGovernance.QUORUM_PERCENTAGE = 20`. -/
def QUORUM_PERCENTAGE : Nat := 20

/-- `RendaGovernance.VOTING_PERIOD = 7 days`. -/
def VOTING_PERIOD : Nat := 7 * 86400

/-- `RendaGovernance.MIN_VOTING_POWER = 100 * 10**18`. -/
def MIN_VOTING_POWER : Nat := 100 * 10 ^ 18

/-- `RendaGovernance.executeProposal(proposalId)` at time `now`: the id-range,
window-ended and not-yet-executed checks, then
`quorum = totalSupply * QUORUM_PERCENTAGE / 100` and
`passed = totalVotes >= quorum && votesFor > votesAgainst`. -/
def executeProposal (g : GovState) (now pid : Nat) : Option GovState :=
  if pid = 0 then none
  else if g.proposalCount < pid then none
  else
    let p := g.proposals pid
    if now ≤ p.endTime then none
    else if p.executed then none
    else
      let totalVotes := p.votesFor + p.votesAgainst
      let quorum := g.hrm.totalSupply * QUORUM_PERCENTAGE / 100
      let ok : Bool := decide (quorum ≤ totalVotes) && decide (p.votesAgainst < p.votesFor)
      some { g with
        proposals := fun i => if i = pid then { p with executed := true, passed := ok }
          else g.proposals i }

/-- `DisasterManagement.ClaimStatus`. -/
inductive ClaimStatus where
  | PENDING | APPROVED | REJECTED | PAID
deriving DecidableEq, Repr

/-- `DisasterManagement.InsuranceClaim`. -/
structure InsuranceClaim where
  id : Nat
  propertyId : Nat
  disasterReportId : Nat
  claimAmount : Nat
  status : ClaimStatus
  evidence : String
  claimedAt : Nat
  claimant : Nat
  approvedAmount : Nat
deriving DecidableEq, Repr

/-- State of the `DisasterManagement` contract relevant to claim processing:
its HRM ledger, its own address, its `Ownable` owner, the claim store and the
`insuranceFund` counter. -/
structure DMState where
  hrm : ERC20State
  thisAddr : Nat
  dmOwner : Nat
  insuranceClaimCount : Nat
  insuranceFund : Nat
  claims : Nat → InsuranceClaim

/-- Update one slot of the `insuranceClaims` mapping. -/
def setClaim (f : Nat → InsuranceClaim) (i : Nat) (c : InsuranceClaim) :
    Nat → InsuranceClaim :=
  fun j => if j = i then c else f j

/-- `DisasterManagement.processClaim(claimId, status, approvedAmount)` called
by `caller`: `onlyOwner`, the id-range and still-pending checks, the status and
`approvedAmount` writes; when the requested status is `APPROVED` with a
positive amount, the fund check, the HRM payout to the claimant, the fund
decrement and the forced transition to `PAID`. -/
def processClaim (d : DMState) (caller claimId : Nat) (status : ClaimStatus)
    (approvedAmount : Nat) : Option DMState :=
  if caller ≠ d.dmOwner then none
  else if claimId = 0 then none
  else if d.insuranceClaimCount < claimId then none
  else
    let c := d.claims claimId
    if c.status ≠ ClaimStatus.PENDING then none
    else
      let c1 := { c with status := status, approvedAmount := approvedAmount }
      if status = ClaimStatus.APPROVED ∧ 0 < approvedAmount then
        if d.insuranceFund < approvedAmount then none
        else
          match erc20Transfer d.hrm d.thisAddr c.claimant approvedAmount with
          | none => none
          | some h =>
            some { d with
              hrm := h
              insuranceFund := d.insuranceFund - approvedAmount
              claims := setClaim d.claims claimId { c1 with status := ClaimStatus.PAID } }
      else
        some { d with claims := setClaim d.claims claimId c1 }

/-- A paused HRM ledger with a single funded account. -/
def pausedHRM : ERC20State where
  balances := fun a => if a = 1 then 1000 else 0
  allowances := fun _ _ => 0
  totalSupply := 1000
  paused := true

/-- C8 witness: a concrete property on which the two calls of
`verifyProperty` agree. -/
def verifyWitState : PTState where
  hrm := pausedHRM
  thisAddr := 5
  contractOwner := 9
  feeRecipient := 7
  platformFeePercent := 250
  tokenIdCounter := 1
  properties := fun _ => defaultProperty
  investments := fun _ _ => defaultInvestment
  propertyInvestors := fun _ => []
  investorProperties := fun _ => []
  sellOrders := fun _ => defaultSellOrder
  propertySellOrders := fun _ => []
  userSellOrders := fun _ => []
  sellOrderCounter := 0

/-- The state after the first `verifyProperty` call on `verifyWitState`. -/
def verifyWitState1 : PTState :=
  (verifyProperty verifyWitState 9 0).getD verifyWitState

/-- An unpaused HRM ledger with total supply 1000000, as read by governance. -/
def govHRM : ERC20State where
  balances := fun _ => 0
  allowances := fun _ _ => 0
  totalSupply := 1000000
  paused := false

/-- A governance state holding exactly one open proposal with the given
tallies, whose voting window ends at time 100. -/
def govSt (f a : Nat) : GovState where
  hrm := govHRM
  proposalCount := 1
  proposals := fun _ =>
    { id := 1, title := "", description := "", proposer := 1
      votesFor := f, votesAgainst := a, startTime := 0, endTime := 100
      executed := false, passed := false }
  votes := fun _ _ => { hasVoted := false, support := false, votingPower := 0 }

/-- A state ready for the C1 witness: property 0 exists with seller 2 holding
30 shares, yet order 0 — created before the seller divested — still offers 100
shares. -/
def overCommitState : PTState where
  hrm := { balances := fun _ => 10 ^ 21, allowances := fun _ _ => 10 ^ 21
           totalSupply := 10 ^ 24, paused := false }
  thisAddr := 5
  contractOwner := 9
  feeRecipient := 7
  platformFeePercent := 250
  tokenIdCounter := 1
  properties := fun _ =>
    { defaultProperty with
      totalTokens := 1000, availableTokens := 870, tokenPrice := 10 ^ 18
      propertyOwner := 2, isActive := true, isVerified := true }
  investments := fun _ a => if a = 2 then
      { investor := 2, tokensOwned := 30, investmentAmount := 0, purchaseDate := 0 }
    else defaultInvestment
  propertyInvestors := fun _ => [2]
  investorProperties := fun _ => [0]
  sellOrders := fun _ =>
    { id := 0, propertyId := 0, seller := 2, tokensForSale := 100
      pricePerToken := 10 ^ 18, totalPrice := 100 * 10 ^ 18, isActive := true
      createdAt := 0, expiresAt := 10 ^ 9 }
  propertySellOrders := fun _ => [0]
  userSellOrders := fun _ => [0]
  sellOrderCounter := 1

/-- A disaster-management state for the C6 witness: fund 1000, one pending
claim by claimant 3, contract (account 5) holding 1000 HRM. -/
def dmState : DMState where
  hrm := { balances := fun a => if a = 5 then 1000 else 0
           allowances := fun _ _ => 0, totalSupply := 1000000, paused := false }
  thisAddr := 5
  dmOwner := 9
  insuranceClaimCount := 1
  insuranceFund := 1000
  claims := fun _ =>
    { id := 1, propertyId := 0, disasterReportId := 1, claimAmount := 600
      status := ClaimStatus.PENDING, evidence := "", claimedAt := 0
      claimant := 3, approvedAmount := 0 }

/-- The state produced by a successful `purchaseTokens` call: the three
chained HRM balance moves, the allowance decrement, the investor-index push on
a first purchase, the holding update and the `availableTokens` decrement. -/
def purchResult (s : PTState) (caller pid tokens now : Nat) : PTState :=
  let cost := tokens * (s.properties pid).tokenPrice
  let fee := cost * s.platformFeePercent / 10000
  let net := cost - fee
  let b1 := move s.hrm.balances caller s.thisAddr cost
  let b2 := move b1 s.thisAddr s.feeRecipient fee
  let b3 := move b2 s.thisAddr (s.properties pid).propertyOwner net
  let inv0 := s.investments pid caller
  { s with
    hrm := { balances := b3
             allowances := setAllow s.hrm.allowances caller s.thisAddr
               (s.hrm.allowances caller s.thisAddr - cost)
             totalSupply := s.hrm.totalSupply
             paused := s.hrm.paused }
    propertyInvestors := if inv0.investor = 0 then pushAt s.propertyInvestors pid caller
      else s.propertyInvestors
    investorProperties := if inv0.investor = 0 then pushAt s.investorProperties caller pid
      else s.investorProperties
    investments := setInv s.investments pid caller
      { investor := caller
        tokensOwned := inv0.tokensOwned + tokens
        investmentAmount := inv0.investmentAmount + net
        purchaseDate := now }
    properties := setProp s.properties pid
      { s.properties pid with
        availableTokens := (s.properties pid).availableTokens - tokens } }

/-- The state produced by a successful `buyFromOrder` call. -/
def buyResult (s : PTState) (caller oid n now : Nat) : PTState :=
  let order := s.sellOrders oid
  let totalCost := n * order.pricePerToken
  let fee := totalCost * s.platformFeePercent / 10000
  let net := totalCost - fee
  let b1 := move s.hrm.balances caller s.thisAddr totalCost
  let b2 := move b1 s.thisAddr s.feeRecipient fee
  let b3 := move b2 s.thisAddr order.seller net
  let invS := s.investments order.propertyId order.seller
  let invB := s.investments order.propertyId caller
  let i1 := setInv s.investments order.propertyId order.seller
    { invS with tokensOwned := invS.tokensOwned - n }
  let remaining := order.tokensForSale - n
  { s with
    hrm := { balances := b3
             allowances := setAllow s.hrm.allowances caller s.thisAddr
               (s.hrm.allowances caller s.thisAddr - totalCost)
             totalSupply := s.hrm.totalSupply
             paused := s.hrm.paused }
    propertyInvestors := if invB.investor = 0 then pushAt s.propertyInvestors order.propertyId caller
      else s.propertyInvestors
    investorProperties := if invB.investor = 0 then pushAt s.investorProperties caller order.propertyId
      else s.investorProperties
    investments := setInv i1 order.propertyId caller
      { investor := caller
        tokensOwned := invB.tokensOwned + n
        investmentAmount := invB.investmentAmount + net
        purchaseDate := now }
    sellOrders := setOrder s.sellOrders oid
      { order with
        tokensForSale := remaining
        isActive := if remaining = 0 then false else order.isActive } }

/-- The amount `distributeRentalIncome` pays a single investor `a`:
`T * tokensOwned / D` when the holding is positive, nothing otherwise. -/
def payoutShare (inv : Nat → Nat → Investment) (pid T D a : Nat) : Nat :=
  if 0 < (inv pid a).tokensOwned then T * (inv pid a).tokensOwned / D else 0

/-- Total paid over a list of investors. -/
def payoutSum (inv : Nat → Nat → Investment) (pid T D : Nat) (l : List Nat) : Nat :=
  (l.map (payoutShare inv pid T D)).sum

/-- Sum of `Investment.tokensOwned` over a property's investor index. -/
def sumOwned (s : PTState) (pid : Nat) : Nat :=
  ((s.propertyInvestors pid).map (fun a => (s.investments pid a).tokensOwned)).sum

/-- The 200/100 split over 300 sold shares used by the C3 witness: the
contract (account 5) holds 1000 HRM to distribute. -/
def distState : PTState where
  hrm := { balances := fun a => if a = 5 then 1000 else 0
           allowances := fun _ _ => 0, totalSupply := 1000000, paused := false }
  thisAddr := 5
  contractOwner := 9
  feeRecipient := 7
  platformFeePercent := 250
  tokenIdCounter := 1
  properties := fun _ =>
    { defaultProperty with totalTokens := 300, availableTokens := 0, isActive := true }
  investments := fun _ a =>
    if a = 1 then { investor := 1, tokensOwned := 200, investmentAmount := 0, purchaseDate := 0 }
    else if a = 2 then { investor := 2, tokensOwned := 100, investmentAmount := 0, purchaseDate := 0 }
    else defaultInvestment
  propertyInvestors := fun _ => [1, 2]
  investorProperties := fun a => if a = 1 ∨ a = 2 then [0] else []
  sellOrders := fun _ => defaultSellOrder
  propertySellOrders := fun _ => []
  userSellOrders := fun _ => []
  sellOrderCounter := 0

/-- The state of a freshly deployed `PropertyToken` contract: every mapping
at its Solidity default, counters at zero, `platformFeePercent = 250`. -/
def initPT (hrm : ERC20State) (thisA owner feeR : Nat) : PTState where
  hrm := hrm
  thisAddr := thisA
  contractOwner := owner
  feeRecipient := feeR
  platformFeePercent := 250
  tokenIdCounter := 0
  properties := fun _ => defaultProperty
  investments := fun _ _ => defaultInvestment
  propertyInvestors := fun _ => []
  investorProperties := fun _ => []
  sellOrders := fun _ => defaultSellOrder
  propertySellOrders := fun _ => []
  userSellOrders := fun _ => []
  sellOrderCounter := 0

/-- Reachability: the states produced from a fresh deployment by any sequence
of the six bookkeeping operations.  `extToken` models arbitrary external
activity on the HRM ledger (mints, burns, transfers by other parties), which
the share bookkeeping never reads destructively.  Callers are nonzero
addresses, as guaranteed by the EVM for `msg.sender`. -/
inductive Reach : PTState → Prop where
  | init : ∀ hrm thisA owner feeR, Reach (initPT hrm thisA owner feeR)
  | extToken : ∀ s h, Reach s → Reach { s with hrm := h }
  | listProp : ∀ s caller uri v t pt r now s' pid, Reach s → caller ≠ 0 →
      listProperty s caller uri v t pt r now = some (s', pid) → Reach s'
  | verify : ∀ s caller pid s', Reach s →
      verifyProperty s caller pid = some s' → Reach s'
  | purchase : ∀ s caller pid tokens now s', Reach s → caller ≠ 0 →
      purchaseTokens s caller pid tokens now = some s' → Reach s'
  | createOrder : ∀ s caller pid tfs ppt dur now s' oid, Reach s → caller ≠ 0 →
      createSellOrder s caller pid tfs ppt dur now = some (s', oid) → Reach s'
  | buyOrder : ∀ s caller oid n now s', Reach s → caller ≠ 0 →
      buyFromOrder s caller oid n now = some s' → Reach s'
  | cancelOrder : ∀ s caller oid s', Reach s →
      cancelSellOrder s caller oid = some s' → Reach s'

/-- The inductive bookkeeping invariant of `PropertyToken`. -/
structure Inv (s : PTState) : Prop where
  fresh_prop : ∀ pid, s.tokenIdCounter ≤ pid → s.properties pid = defaultProperty
  fresh_idx : ∀ pid, s.tokenIdCounter ≤ pid → s.propertyInvestors pid = []
  fresh_inv : ∀ pid a, s.tokenIdCounter ≤ pid → s.investments pid a = defaultInvestment
  nodup : ∀ pid, (s.propertyInvestors pid).Nodup
  memIff : ∀ pid a, a ∈ s.propertyInvestors pid ↔ (s.investments pid a).investor ≠ 0
  zeroOwned : ∀ pid a, (s.investments pid a).investor = 0 →
    (s.investments pid a).tokensOwned = 0
  conserve : ∀ pid,
    sumOwned s pid + (s.properties pid).availableTokens = (s.properties pid).totalTokens
  soldPos : ∀ pid, s.propertyInvestors pid ≠ [] →
    (s.properties pid).availableTokens < (s.properties pid).totalTokens
  orderPid : ∀ oid, (s.sellOrders oid).isActive = true →
    (s.sellOrders oid).propertyId < s.tokenIdCounter

/-- An HRM ledger funding buyer 1 with balance and allowance for the
reachable-chain witnesses. -/
def chainHRM : ERC20State where
  balances := fun a => if a = 1 then 10 ^ 20 else 0
  allowances := fun a b => if a = 1 ∧ b = 5 then 10 ^ 20 else 0
  totalSupply := 10 ^ 20
  paused := false

/-- Fresh deployment used by the reachable-chain witnesses. -/
def chain0 : PTState := initPT chainHRM 5 9 7

/-- After account 2 lists a 100-share property worth `10^20`. -/
def chain1 : PTState :=
  ((listProperty chain0 2 "uri" (10 ^ 20) 100 PropertyType.Residential
    RiskLevel.Low 0).getD (chain0, 0)).1

/-- After the owner (account 9) verifies property 0. -/
def chain2 : PTState := (verifyProperty chain1 9 0).getD chain1

/-- After account 1 buys all 100 shares of property 0. -/
def chain3 : PTState := (purchaseTokens chain2 1 0 100 0).getD chain2

/-! ## Theorems -/

theorem setBal_same (b : Nat → Nat) (a v : Nat) : setBal b a v a = v := by
  simp [setBal]

theorem setBal_other (b : Nat → Nat) (a v x : Nat) (h : x ≠ a) : setBal b a v x = b x := by
  simp [setBal, h]

theorem move_src (b : Nat → Nat) (src dst amt : Nat) (h : src ≠ dst) :
    move b src dst amt src = b src - amt := by
  simp [move, setBal, h]

theorem move_dst (b : Nat → Nat) (src dst amt : Nat) (h : src ≠ dst) :
    move b src dst amt dst = b dst + amt := by
  simp [move, setBal, Ne.symm h]

theorem move_other (b : Nat → Nat) (src dst amt x : Nat) (h1 : x ≠ src) (h2 : x ≠ dst) :
    move b src dst amt x = b x := by
  simp [move, setBal, h1, h2]

theorem move_self (b : Nat → Nat) (src amt : Nat) (h : amt ≤ b src) :
    move b src src amt src = b src := by
  simp [move, setBal]
  omega

theorem erc20Transfer_some (s : ERC20State) (src dst amt : Nat)
    (h1 : src ≠ 0) (h2 : dst ≠ 0) (h3 : s.paused = false) (h4 : amt ≤ s.balances src) :
    erc20Transfer s src dst amt = some { s with balances := move s.balances src dst amt } := by
  unfold erc20Transfer
  simp [h1, h2, h3, Nat.not_lt.mpr h4]

theorem erc20TransferFrom_some (s : ERC20State) (spender src dst amt : Nat)
    (h0 : amt ≤ s.allowances src spender)
    (h1 : src ≠ 0) (h2 : dst ≠ 0) (h3 : s.paused = false) (h4 : amt ≤ s.balances src) :
    erc20TransferFrom s spender src dst amt =
      some { s with
        balances := move s.balances src dst amt
        allowances := setAllow s.allowances src spender (s.allowances src spender - amt) } := by
  unfold erc20TransferFrom
  rw [erc20Transfer_some s src dst amt h1 h2 h3 h4]
  simp [Nat.not_lt.mpr h0]

theorem setProp_same (f : Nat → Property) (i : Nat) (p : Property) : setProp f i p i = p := by
  simp [setProp]

theorem setProp_other (f : Nat → Property) (i : Nat) (p : Property) (j : Nat) (h : j ≠ i) :
    setProp f i p j = f j := by
  simp [setProp, h]

/-- C8.  A second `verifyProperty` call on the same property succeeds and
returns exactly the state produced by the first call: both calls end with
`isActive = true` and `isVerified = true` and the second call changes no field
of any record. -/
theorem verifyProperty_idempotent (s : PTState) (caller pid : Nat) (s' : PTState)
    (h : verifyProperty s caller pid = some s') :
    verifyProperty s' caller pid = some s' := by
  unfold verifyProperty at h ⊢
  by_cases h1 : caller ≠ s.contractOwner
  · simp [h1] at h
  · by_cases h2 : s.tokenIdCounter ≤ pid
    · simp [h1, h2] at h
    · simp only [if_neg h1, if_neg h2] at h
      injection h with h
      subst h
      simp only [if_neg h1, if_neg h2]
      refine congrArg some ?_
      ext : 1
      all_goals try rfl
      funext j
      by_cases hj : j = pid
      · subst hj
        simp [setProp]
      · simp [setProp, hj]

theorem verifyProperty_idempotent_witness :
    verifyProperty verifyWitState1 9 0 = some verifyWitState1 :=
  verifyProperty_idempotent verifyWitState 9 0 verifyWitState1 rfl

/-- C4 counterexample: on a paused ledger whose other preconditions for
minting and burning hold (supply cap not exceeded, nonzero recipient, funded
burner), `mint` and `burn` fail — refuting the claim that the pause flag
blocks only `transfer` and `transferFrom`. -/
theorem pause_blocks_mint_burn_counterexample :
    hrmMint pausedHRM 2 5 = none ∧ hrmBurn pausedHRM 1 5 = none := by
  constructor <;> rfl

/-- C4 (amended): while the ledger is paused, `transfer`, `transferFrom`,
`mint` and `burn` all fail, and `approve` still succeeds whenever its own
preconditions (nonzero owner and spender) hold. -/
theorem pause_blocks_all_balance_moves (s : ERC20State) (hp : s.paused = true) :
    (∀ src dst amt, erc20Transfer s src dst amt = none) ∧
    (∀ spender src dst amt, erc20TransferFrom s spender src dst amt = none) ∧
    (∀ dst amt, hrmMint s dst amt = none) ∧
    (∀ caller amt, hrmBurn s caller amt = none) ∧
    (∀ caller spender amt, caller ≠ 0 → spender ≠ 0 →
      erc20Approve s caller spender amt =
        some { s with allowances := setAllow s.allowances caller spender amt }) := by
  refine ⟨?_, ?_, ?_, ?_, ?_⟩
  · intro src dst amt
    unfold erc20Transfer
    split_ifs <;> simp_all
  · intro spender src dst amt
    unfold erc20TransferFrom erc20Transfer
    split_ifs <;> simp_all
  · intro dst amt
    unfold hrmMint
    split_ifs <;> simp_all
  · intro caller amt
    unfold hrmBurn
    split_ifs <;> simp_all
  · intro caller spender amt h1 h2
    unfold erc20Approve
    simp [h1, h2]

theorem pause_blocks_all_balance_moves_witness :
    erc20Transfer pausedHRM 1 2 5 = none ∧
    erc20TransferFrom pausedHRM 3 1 2 5 = none ∧
    hrmMint pausedHRM 2 5 = none ∧
    hrmBurn pausedHRM 1 5 = none ∧
    (erc20Approve pausedHRM 1 2 5).isSome = true := by
  obtain ⟨h1, h2, h3, h4, h5⟩ := pause_blocks_all_balance_moves pausedHRM rfl
  exact ⟨h1 1 2 5, h2 3 1 2 5, h3 2 5, h4 1 5, by rw [h5 1 2 5 (by decide) (by decide)]; rfl⟩

/-- C5 counterexample: with `totalSupply = 1000000`, executing the proposal
with `votesFor = 90000, votesAgainst = 20000` after the window resolves
`passed = false` — refuting the claim that this proposal resolves
`passed = true` under a 10 percent quorum. -/
theorem executeProposal_quorum_counterexample :
    (executeProposal (govSt 90000 20000) 101 1).map (fun g => (g.proposals 1).passed) =
      some false := by
  rfl

/-- C5 (amended): `executeProposal` after the window on a not-yet-executed
proposal sets `executed = true` and
`passed = (votesFor + votesAgainst ≥ totalSupply * 20 / 100) AND
(votesFor > votesAgainst)` — the quorum is 20 percent of total supply
(`QUORUM_PERCENTAGE = 20`), not 10 percent; with `totalSupply = 1000000`,
both the 60000/20000 and the 90000/20000 proposals resolve `passed = false`. -/
theorem executeProposal_sets_passed (g : GovState) (now pid : Nat)
    (h1 : 1 ≤ pid) (h2 : pid ≤ g.proposalCount)
    (h3 : (g.proposals pid).endTime < now) (h4 : (g.proposals pid).executed = false) :
    ∃ g', executeProposal g now pid = some g' ∧
      (g'.proposals pid).executed = true ∧
      ((g'.proposals pid).passed = true ↔
        (g.hrm.totalSupply * QUORUM_PERCENTAGE / 100 ≤
          (g.proposals pid).votesFor + (g.proposals pid).votesAgainst ∧
        (g.proposals pid).votesAgainst < (g.proposals pid).votesFor)) := by
  unfold executeProposal
  rw [if_neg (by omega), if_neg (by omega), if_neg (by omega), if_neg (by simp [h4])]
  refine ⟨_, rfl, by simp, ?_⟩
  simp

theorem executeProposal_sets_passed_witness :
    ∃ g', executeProposal (govSt 90000 20000) 101 1 = some g' ∧
      (g'.proposals 1).executed = true ∧ (g'.proposals 1).passed = false := by
  obtain ⟨g', hg, he, hiff⟩ :=
    executeProposal_sets_passed (govSt 90000 20000) 101 1 (by decide) (by decide)
      (by decide) (by decide)
  refine ⟨g', hg, he, ?_⟩
  rcases hb : (g'.proposals 1).passed with _ | _
  · rfl
  · exact absurd (hiff.mp hb) (by decide)

/-- C1.  If the requested share count exceeds the seller's current holding at
fulfilment time, `buyFromOrder` fails — regardless of how many shares the
order itself still offers.  In particular two orders that jointly exceed the
holding can never both be fully fulfilled. -/
theorem buyFromOrder_requires_current_holding (s : PTState) (caller oid n now : Nat)
    (h : (s.investments (s.sellOrders oid).propertyId (s.sellOrders oid).seller).tokensOwned < n) :
    buyFromOrder s caller oid n now = none := by
  unfold buyFromOrder
  dsimp only
  split_ifs <;> rfl

theorem buyFromOrder_requires_current_holding_witness :
    (overCommitState.investments 0 2).tokensOwned < 100 ∧
      buyFromOrder overCommitState 1 0 100 0 = none :=
  ⟨by decide, buyFromOrder_requires_current_holding overCommitState 1 0 100 0 (by decide)⟩

/-- C6.  For a pending claim: processing with `APPROVED` and a positive
amount fails when the insurance fund counter is below the amount; otherwise
(fund sufficient, contract funded, ledger unpaused, nonzero distinct
claimant) it pays the claimant exactly the approved amount out of the shared
fund, decrements the fund counter by exactly that amount, and leaves the
claim in status `PAID`, never `APPROVED`.  Processing a claim whose status is
not `PENDING` always fails. -/
theorem processClaim_spec (d : DMState) (claimId : Nat)
    (hid1 : 1 ≤ claimId) (hid2 : claimId ≤ d.insuranceClaimCount) :
    (((d.claims claimId).status ≠ ClaimStatus.PENDING) →
      ∀ caller status amt, processClaim d caller claimId status amt = none) ∧
    (∀ amt, (d.claims claimId).status = ClaimStatus.PENDING → 0 < amt →
      d.insuranceFund < amt →
      processClaim d d.dmOwner claimId ClaimStatus.APPROVED amt = none) ∧
    (∀ amt, (d.claims claimId).status = ClaimStatus.PENDING → 0 < amt →
      amt ≤ d.insuranceFund →
      d.hrm.paused = false → d.thisAddr ≠ 0 →
      (d.claims claimId).claimant ≠ 0 → (d.claims claimId).claimant ≠ d.thisAddr →
      amt ≤ d.hrm.balances d.thisAddr →
      ∃ d', processClaim d d.dmOwner claimId ClaimStatus.APPROVED amt = some d' ∧
        (d'.claims claimId).status = ClaimStatus.PAID ∧
        d'.insuranceFund + amt = d.insuranceFund ∧
        d'.hrm.balances (d.claims claimId).claimant =
          d.hrm.balances (d.claims claimId).claimant + amt ∧
        d'.hrm.balances d.thisAddr + amt = d.hrm.balances d.thisAddr) := by
  refine ⟨?_, ?_, ?_⟩
  · intro hst caller status amt
    unfold processClaim
    dsimp only
    split_ifs <;> rfl
  · intro amt hst hpos hfund
    unfold processClaim
    dsimp only
    rw [if_neg (by simp), if_neg (by omega), if_neg (by omega), if_neg (by simp [hst])]
    rw [if_pos ⟨rfl, hpos⟩, if_pos hfund]
  · intro amt hst hpos hfund hpause ht0 hc0 hct hbal
    unfold processClaim
    dsimp only
    rw [if_neg (by simp), if_neg (by omega), if_neg (by omega), if_neg (by simp [hst])]
    rw [if_pos ⟨rfl, hpos⟩, if_neg (by omega)]
    rw [erc20Transfer_some d.hrm d.thisAddr (d.claims claimId).claimant amt ht0 hc0 hpause hbal]
    refine ⟨_, rfl, ?_, ?_, ?_, ?_⟩
    · dsimp only
      simp [setClaim]
    · dsimp only
      omega
    · dsimp only
      rw [move_dst _ _ _ _ (Ne.symm hct)]
    · dsimp only
      rw [move_src _ _ _ _ (Ne.symm hct)]
      omega

theorem processClaim_spec_witness :
    ∃ d', processClaim dmState 9 1 ClaimStatus.APPROVED 500 = some d' ∧
      (d'.claims 1).status = ClaimStatus.PAID ∧
      d'.insuranceFund + 500 = 1000 ∧
      d'.hrm.balances 3 = 500 := by
  obtain ⟨-, -, h3⟩ := processClaim_spec dmState 1 (by decide) (by decide)
  obtain ⟨d', hd, hpaid, hfund, hpay, -⟩ :=
    h3 500 (by decide) (by decide) (by decide) rfl (by decide) (by decide) (by decide) (by decide)
  exact ⟨d', hd, hpaid, by simpa [dmState] using hfund, by simpa [dmState] using hpay⟩

theorem fee_le_cost (cost fp : Nat) (h : fp ≤ 10000) : cost * fp / 10000 ≤ cost := by
  calc cost * fp / 10000 ≤ cost * 10000 / 10000 :=
        Nat.div_le_div_right (Nat.mul_le_mul_left _ h)
    _ = cost := Nat.mul_div_cancel cost (by norm_num)

/-- When every check of `purchaseTokens` passes, the call returns exactly
`purchResult`. -/
theorem purchaseTokens_eq_some (s : PTState) (caller pid tokens now : Nat)
    (hex : pid < s.tokenIdCounter)
    (ha : (s.properties pid).isActive = true)
    (htok : tokens ≠ 0)
    (hav : tokens ≤ (s.properties pid).availableTokens)
    (hmin : MIN_INVESTMENT ≤ tokens * (s.properties pid).tokenPrice)
    (hbal : tokens * (s.properties pid).tokenPrice ≤ s.hrm.balances caller)
    (hal : tokens * (s.properties pid).tokenPrice ≤ s.hrm.allowances caller s.thisAddr)
    (hpause : s.hrm.paused = false)
    (hc0 : caller ≠ 0) (hct : caller ≠ s.thisAddr) (ht0 : s.thisAddr ≠ 0)
    (hf0 : s.feeRecipient ≠ 0) (ho0 : (s.properties pid).propertyOwner ≠ 0)
    (hfp : s.platformFeePercent ≤ 10000) :
    purchaseTokens s caller pid tokens now = some (purchResult s caller pid tokens now) := by
  have hfee : tokens * (s.properties pid).tokenPrice * s.platformFeePercent / 10000 ≤
      tokens * (s.properties pid).tokenPrice := fee_le_cost _ _ hfp
  unfold purchaseTokens
  dsimp only
  rw [if_neg (by omega), if_neg (by simp [ha]), if_neg htok, if_neg (by omega),
    if_neg (by omega), if_neg (by omega)]
  rw [erc20TransferFrom_some s.hrm s.thisAddr caller s.thisAddr _ hal hc0 ht0 hpause hbal]
  dsimp only
  have step2 := erc20Transfer_some
    { balances := move s.hrm.balances caller s.thisAddr (tokens * (s.properties pid).tokenPrice)
      allowances := setAllow s.hrm.allowances caller s.thisAddr
        (s.hrm.allowances caller s.thisAddr - tokens * (s.properties pid).tokenPrice)
      totalSupply := s.hrm.totalSupply, paused := s.hrm.paused }
    s.thisAddr s.feeRecipient
    (tokens * (s.properties pid).tokenPrice * s.platformFeePercent / 10000)
    ht0 hf0 hpause (by dsimp only; rw [move_dst _ _ _ _ hct]; omega)
  rw [step2]
  dsimp only
  have step3 := erc20Transfer_some
    { balances := move
        (move s.hrm.balances caller s.thisAddr (tokens * (s.properties pid).tokenPrice))
        s.thisAddr s.feeRecipient
        (tokens * (s.properties pid).tokenPrice * s.platformFeePercent / 10000)
      allowances := setAllow s.hrm.allowances caller s.thisAddr
        (s.hrm.allowances caller s.thisAddr - tokens * (s.properties pid).tokenPrice)
      totalSupply := s.hrm.totalSupply, paused := s.hrm.paused }
    s.thisAddr (s.properties pid).propertyOwner
    (tokens * (s.properties pid).tokenPrice -
      tokens * (s.properties pid).tokenPrice * s.platformFeePercent / 10000)
    ht0 ho0 hpause ?hnet
  case hnet =>
    dsimp only
    by_cases hfr : s.feeRecipient = s.thisAddr
    · rw [hfr, move_self _ _ _ (by rw [move_dst _ _ _ _ hct]; omega)]
      rw [move_dst _ _ _ _ hct]
      omega
    · rw [move_src _ _ _ _ (fun hh => hfr hh.symm), move_dst _ _ _ _ hct]
      omega
  rw [step3]
  rfl

/-- C2.  In a sane configuration (existing property, unpaused ledger, nonzero
distinct addresses, sufficient allowance, fee rate within the 100 percent
bound enforced by `setPlatformFee`), `purchaseTokens` fails exactly when the
property is inactive, the requested count exceeds `availableTokens`, the cost
`tokens * tokenPrice` is below `MIN_INVESTMENT`, or the buyer's HRM balance is
below the cost.  A `tokens = 0` request is subsumed: its cost `0` is below the
floor.  Failure is `none`, the embedding of an EVM revert, which by
construction leaves the buyer's balance, `availableTokens` and every
`Investment` record exactly as before the call. -/
theorem purchaseTokens_fail_iff (s : PTState) (caller pid tokens now : Nat)
    (hex : pid < s.tokenIdCounter)
    (hpause : s.hrm.paused = false)
    (hc0 : caller ≠ 0) (hct : caller ≠ s.thisAddr) (ht0 : s.thisAddr ≠ 0)
    (hf0 : s.feeRecipient ≠ 0) (ho0 : (s.properties pid).propertyOwner ≠ 0)
    (hal : tokens * (s.properties pid).tokenPrice ≤ s.hrm.allowances caller s.thisAddr)
    (hfp : s.platformFeePercent ≤ 10000) :
    purchaseTokens s caller pid tokens now = none ↔
      ((s.properties pid).isActive = false ∨
       (s.properties pid).availableTokens < tokens ∨
       tokens * (s.properties pid).tokenPrice < MIN_INVESTMENT ∨
       s.hrm.balances caller < tokens * (s.properties pid).tokenPrice) := by
  constructor
  · intro hn
    by_contra hd
    push_neg at hd
    obtain ⟨ha, hav, hmin, hbal⟩ := hd
    have ha' : (s.properties pid).isActive = true := by
      cases hact : (s.properties pid).isActive
      · exact absurd hact ha
      · rfl
    have htok : tokens ≠ 0 := by
      intro h0
      rw [h0, Nat.zero_mul] at hmin
      norm_num [MIN_INVESTMENT] at hmin
    rw [purchaseTokens_eq_some s caller pid tokens now hex ha' htok hav hmin hbal hal
      hpause hc0 hct ht0 hf0 ho0 hfp] at hn
    exact Option.noConfusion hn
  · intro hd
    unfold purchaseTokens
    dsimp only
    rcases hd with h | h | h | h
    · rw [if_neg (by omega), if_pos (by simp [h])]
    · split_ifs <;> rfl
    · split_ifs <;> rfl
    · split_ifs <;> rfl

theorem purchaseTokens_fail_iff_witness :
    purchaseTokens overCommitState 1 0 50 0 = none := by
  refine (purchaseTokens_fail_iff overCommitState 1 0 50 0 (by decide) rfl (by decide)
    (by decide) (by decide) (by decide) (by decide) (by decide) (by decide)).mpr ?_
  refine Or.inr (Or.inr (Or.inl ?_))
  norm_num [overCommitState, MIN_INVESTMENT]

/-- When every check of `buyFromOrder` passes, the call returns exactly
`buyResult`. -/
theorem buyFromOrder_eq_some (s : PTState) (caller oid n now : Nat)
    (hact : (s.sellOrders oid).isActive = true)
    (hexp : now ≤ (s.sellOrders oid).expiresAt)
    (hn : n ≠ 0)
    (hofs : n ≤ (s.sellOrders oid).tokensForSale)
    (hcs : caller ≠ (s.sellOrders oid).seller)
    (hsh : n ≤ (s.investments (s.sellOrders oid).propertyId (s.sellOrders oid).seller).tokensOwned)
    (hbal : n * (s.sellOrders oid).pricePerToken ≤ s.hrm.balances caller)
    (hal : n * (s.sellOrders oid).pricePerToken ≤ s.hrm.allowances caller s.thisAddr)
    (hpause : s.hrm.paused = false)
    (hc0 : caller ≠ 0) (hct : caller ≠ s.thisAddr) (ht0 : s.thisAddr ≠ 0)
    (hf0 : s.feeRecipient ≠ 0) (hs0 : (s.sellOrders oid).seller ≠ 0)
    (hfp : s.platformFeePercent ≤ 10000) :
    buyFromOrder s caller oid n now = some (buyResult s caller oid n now) := by
  have hfee : n * (s.sellOrders oid).pricePerToken * s.platformFeePercent / 10000 ≤
      n * (s.sellOrders oid).pricePerToken := fee_le_cost _ _ hfp
  unfold buyFromOrder
  dsimp only
  rw [if_neg (by simp [hact]), if_neg (by omega), if_neg hn, if_neg (by omega),
    if_neg hcs, if_neg (by omega), if_neg (by omega)]
  rw [erc20TransferFrom_some s.hrm s.thisAddr caller s.thisAddr _ hal hc0 ht0 hpause hbal]
  dsimp only
  have step2 := erc20Transfer_some
    { balances := move s.hrm.balances caller s.thisAddr (n * (s.sellOrders oid).pricePerToken)
      allowances := setAllow s.hrm.allowances caller s.thisAddr
        (s.hrm.allowances caller s.thisAddr - n * (s.sellOrders oid).pricePerToken)
      totalSupply := s.hrm.totalSupply, paused := s.hrm.paused }
    s.thisAddr s.feeRecipient
    (n * (s.sellOrders oid).pricePerToken * s.platformFeePercent / 10000)
    ht0 hf0 hpause (by dsimp only; rw [move_dst _ _ _ _ hct]; omega)
  rw [step2]
  dsimp only
  have step3 := erc20Transfer_some
    { balances := move
        (move s.hrm.balances caller s.thisAddr (n * (s.sellOrders oid).pricePerToken))
        s.thisAddr s.feeRecipient
        (n * (s.sellOrders oid).pricePerToken * s.platformFeePercent / 10000)
      allowances := setAllow s.hrm.allowances caller s.thisAddr
        (s.hrm.allowances caller s.thisAddr - n * (s.sellOrders oid).pricePerToken)
      totalSupply := s.hrm.totalSupply, paused := s.hrm.paused }
    s.thisAddr (s.sellOrders oid).seller
    (n * (s.sellOrders oid).pricePerToken -
      n * (s.sellOrders oid).pricePerToken * s.platformFeePercent / 10000)
    ht0 hs0 hpause ?hnet
  case hnet =>
    dsimp only
    by_cases hfr : s.feeRecipient = s.thisAddr
    · rw [hfr, move_self _ _ _ (by rw [move_dst _ _ _ _ hct]; omega)]
      rw [move_dst _ _ _ _ hct]
      omega
    · rw [move_src _ _ _ _ (fun hh => hfr hh.symm), move_dst _ _ _ _ hct]
      omega
  rw [step3]
  rfl

/-- C7.  On every successful purchase (first conjunct) or order fulfilment
(second conjunct) of total cost `C`, the platform fee is
`C * platformFeePercent / 10000` (floor division), the net amount is
`C - fee`, so `fee + net = C` exactly; the fee recipient's HRM balance grows
by exactly `fee` and the property owner's (resp. seller's) by exactly `net`.
Stated for pairwise-distinct payout parties — with aliased parties a single
account would receive both parts. -/
theorem fee_split_exact :
    (∀ (s : PTState) (caller pid tokens now : Nat),
      pid < s.tokenIdCounter →
      (s.properties pid).isActive = true →
      tokens ≠ 0 →
      tokens ≤ (s.properties pid).availableTokens →
      MIN_INVESTMENT ≤ tokens * (s.properties pid).tokenPrice →
      tokens * (s.properties pid).tokenPrice ≤ s.hrm.balances caller →
      tokens * (s.properties pid).tokenPrice ≤ s.hrm.allowances caller s.thisAddr →
      s.hrm.paused = false →
      caller ≠ 0 → caller ≠ s.thisAddr → s.thisAddr ≠ 0 →
      s.feeRecipient ≠ 0 → (s.properties pid).propertyOwner ≠ 0 →
      s.platformFeePercent ≤ 10000 →
      s.feeRecipient ≠ caller → s.feeRecipient ≠ s.thisAddr →
      s.feeRecipient ≠ (s.properties pid).propertyOwner →
      (s.properties pid).propertyOwner ≠ caller →
      (s.properties pid).propertyOwner ≠ s.thisAddr →
      ∃ s', purchaseTokens s caller pid tokens now = some s' ∧
        tokens * (s.properties pid).tokenPrice * s.platformFeePercent / 10000 +
          (tokens * (s.properties pid).tokenPrice -
            tokens * (s.properties pid).tokenPrice * s.platformFeePercent / 10000) =
          tokens * (s.properties pid).tokenPrice ∧
        s'.hrm.balances s.feeRecipient = s.hrm.balances s.feeRecipient +
          tokens * (s.properties pid).tokenPrice * s.platformFeePercent / 10000 ∧
        s'.hrm.balances (s.properties pid).propertyOwner =
          s.hrm.balances (s.properties pid).propertyOwner +
          (tokens * (s.properties pid).tokenPrice -
            tokens * (s.properties pid).tokenPrice * s.platformFeePercent / 10000)) ∧
    (∀ (s : PTState) (caller oid n now : Nat),
      (s.sellOrders oid).isActive = true →
      now ≤ (s.sellOrders oid).expiresAt →
      n ≠ 0 →
      n ≤ (s.sellOrders oid).tokensForSale →
      caller ≠ (s.sellOrders oid).seller →
      n ≤ (s.investments (s.sellOrders oid).propertyId (s.sellOrders oid).seller).tokensOwned →
      n * (s.sellOrders oid).pricePerToken ≤ s.hrm.balances caller →
      n * (s.sellOrders oid).pricePerToken ≤ s.hrm.allowances caller s.thisAddr →
      s.hrm.paused = false →
      caller ≠ 0 → caller ≠ s.thisAddr → s.thisAddr ≠ 0 →
      s.feeRecipient ≠ 0 → (s.sellOrders oid).seller ≠ 0 →
      s.platformFeePercent ≤ 10000 →
      s.feeRecipient ≠ caller → s.feeRecipient ≠ s.thisAddr →
      s.feeRecipient ≠ (s.sellOrders oid).seller →
      (s.sellOrders oid).seller ≠ s.thisAddr →
      ∃ s', buyFromOrder s caller oid n now = some s' ∧
        n * (s.sellOrders oid).pricePerToken * s.platformFeePercent / 10000 +
          (n * (s.sellOrders oid).pricePerToken -
            n * (s.sellOrders oid).pricePerToken * s.platformFeePercent / 10000) =
          n * (s.sellOrders oid).pricePerToken ∧
        s'.hrm.balances s.feeRecipient = s.hrm.balances s.feeRecipient +
          n * (s.sellOrders oid).pricePerToken * s.platformFeePercent / 10000 ∧
        s'.hrm.balances (s.sellOrders oid).seller =
          s.hrm.balances (s.sellOrders oid).seller +
          (n * (s.sellOrders oid).pricePerToken -
            n * (s.sellOrders oid).pricePerToken * s.platformFeePercent / 10000)) := by
  constructor
  · intro s caller pid tokens now hex ha htok hav hmin hbal hal hpause hc0 hct ht0 hf0 ho0
      hfp hfc hft hfo hoc hot
    have hfee := fee_le_cost (tokens * (s.properties pid).tokenPrice) s.platformFeePercent hfp
    refine ⟨purchResult s caller pid tokens now,
      purchaseTokens_eq_some s caller pid tokens now hex ha htok hav hmin hbal hal hpause
        hc0 hct ht0 hf0 ho0 hfp, by omega, ?_, ?_⟩
    · unfold purchResult
      dsimp only
      rw [move_other _ _ _ _ _ hft hfo, move_dst _ _ _ _ (Ne.symm hft),
        move_other _ _ _ _ _ hfc hft]
    · unfold purchResult
      dsimp only
      rw [move_dst _ _ _ _ (Ne.symm hot), move_other _ _ _ _ _ hot (Ne.symm hfo),
        move_other _ _ _ _ _ hoc hot]
  · intro s caller oid n now hact hexp hn hofs hcs hsh hbal hal hpause hc0 hct ht0 hf0 hs0
      hfp hfc hft hfs hst
    have hfee := fee_le_cost (n * (s.sellOrders oid).pricePerToken) s.platformFeePercent hfp
    refine ⟨buyResult s caller oid n now,
      buyFromOrder_eq_some s caller oid n now hact hexp hn hofs hcs hsh hbal hal hpause
        hc0 hct ht0 hf0 hs0 hfp, by omega, ?_, ?_⟩
    · unfold buyResult
      dsimp only
      rw [move_other _ _ _ _ _ hft hfs, move_dst _ _ _ _ (Ne.symm hft),
        move_other _ _ _ _ _ hfc hft]
    · unfold buyResult
      dsimp only
      rw [move_dst _ _ _ _ (Ne.symm hst), move_other _ _ _ _ _ hst (Ne.symm hfs),
        move_other _ _ _ _ _ (Ne.symm hcs) hst]

theorem fee_split_exact_witness :
    (∃ s', purchaseTokens overCommitState 1 0 100 0 = some s' ∧
      s'.hrm.balances 7 = 10 ^ 21 + 25 * 10 ^ 17) ∧
    (∃ s', buyFromOrder overCommitState 1 0 20 0 = some s' ∧
      s'.hrm.balances 2 = 10 ^ 21 + (20 * 10 ^ 18 - 5 * 10 ^ 17)) := by
  obtain ⟨hp, hb⟩ := fee_split_exact
  constructor
  · obtain ⟨s', hs, -, hfee, -⟩ := hp overCommitState 1 0 100 0 (by decide) rfl (by decide)
      (by norm_num [overCommitState]) (by norm_num [overCommitState, MIN_INVESTMENT])
      (by norm_num [overCommitState]) (by norm_num [overCommitState]) rfl (by decide)
      (by decide) (by decide) (by decide) (by decide) (by decide) (by decide) (by decide)
      (by decide) (by decide) (by decide)
    refine ⟨s', hs, ?_⟩
    norm_num [overCommitState] at hfee ⊢
    exact hfee
  · obtain ⟨s', hs, -, -, hnet⟩ := hb overCommitState 1 0 20 0 rfl (by norm_num [overCommitState])
      (by decide) (by norm_num [overCommitState]) (by decide) (by norm_num [overCommitState])
      (by norm_num [overCommitState]) (by norm_num [overCommitState]) rfl (by decide)
      (by decide) (by decide) (by decide) (by decide) (by decide) (by decide) (by decide)
      (by decide) (by decide)
    refine ⟨s', hs, ?_⟩
    norm_num [overCommitState] at hnet ⊢
    exact hnet

theorem div_add_div_le (x y D : Nat) (hD : 0 < D) : x / D + y / D ≤ (x + y) / D := by
  rw [Nat.le_div_iff_mul_le hD]
  have hx := Nat.div_mul_le_self x D
  have hy := Nat.div_mul_le_self y D
  calc (x / D + y / D) * D = x / D * D + y / D * D := by ring
    _ ≤ x + y := by omega

/-- Floors of pro-rata shares sum to at most the floor of the total share. -/
theorem payoutSum_le_div (inv : Nat → Nat → Investment) (pid T D : Nat) (hD : 0 < D) :
    ∀ l : List Nat,
      payoutSum inv pid T D l ≤ T * (l.map (fun a => (inv pid a).tokensOwned)).sum / D := by
  intro l
  induction l with
  | nil => simp [payoutSum]
  | cons a rest ih =>
    have h1 : payoutShare inv pid T D a ≤ T * (inv pid a).tokensOwned / D := by
      unfold payoutShare
      split_ifs
      · exact le_rfl
      · exact Nat.zero_le _
    calc payoutSum inv pid T D (a :: rest)
        = payoutShare inv pid T D a + payoutSum inv pid T D rest := by simp [payoutSum]
      _ ≤ T * (inv pid a).tokensOwned / D +
          T * (rest.map (fun a => (inv pid a).tokensOwned)).sum / D := Nat.add_le_add h1 ih
      _ ≤ (T * (inv pid a).tokensOwned +
          T * (rest.map (fun a => (inv pid a).tokensOwned)).sum) / D := div_add_div_le _ _ _ hD
      _ = T * ((a :: rest).map (fun a => (inv pid a).tokensOwned)).sum / D := by
          rw [← Nat.mul_add]
          simp

/-- What the payout loop does: it succeeds whenever the divisor is positive
and the contract balance covers the total payout, pays each listed investor
exactly its share, touches no other account, and debits the contract by
exactly the total payout. -/
theorem distribLoop_spec (thisA pid : Nat) (inv : Nat → Nat → Investment) (T D : Nat)
    (hD : 0 < D) (ht0 : thisA ≠ 0) :
    ∀ (l : List Nat) (h : ERC20State),
      h.paused = false →
      (∀ a ∈ l, a ≠ 0) → (∀ a ∈ l, a ≠ thisA) → l.Nodup →
      payoutSum inv pid T D l ≤ h.balances thisA →
      ∃ h', distribLoop thisA pid inv T D l h = some h' ∧
        h'.balances thisA + payoutSum inv pid T D l = h.balances thisA ∧
        (∀ a ∈ l, h'.balances a = h.balances a + payoutShare inv pid T D a) ∧
        (∀ x, x ∉ l → x ≠ thisA → h'.balances x = h.balances x) := by
  intro l
  induction l with
  | nil =>
    intro h hp hnz hnt hnd hbal
    refine ⟨h, rfl, by simp [payoutSum], by simp, fun x _ _ => rfl⟩
  | cons a rest ih =>
    intro h hp hnz hnt hnd hbal
    have ha0 : a ≠ 0 := hnz a (by simp)
    have hat : a ≠ thisA := hnt a (by simp)
    have hnd' : rest.Nodup := (List.nodup_cons.mp hnd).2
    have hamem : a ∉ rest := (List.nodup_cons.mp hnd).1
    have hps : payoutSum inv pid T D (a :: rest) =
        payoutShare inv pid T D a + payoutSum inv pid T D rest := by simp [payoutSum]
    unfold distribLoop
    dsimp only
    by_cases how : 0 < (inv pid a).tokensOwned
    · have hsha : payoutShare inv pid T D a = T * (inv pid a).tokensOwned / D := by
        simp [payoutShare, how]
      rw [if_pos how, if_neg (by omega)]
      have hshare_le : T * (inv pid a).tokensOwned / D ≤ h.balances thisA := by omega
      rw [erc20Transfer_some h thisA a _ ht0 ha0 hp hshare_le]
      dsimp only
      have hrest : payoutSum inv pid T D rest ≤
          (move h.balances thisA a (T * (inv pid a).tokensOwned / D)) thisA := by
        rw [move_src _ _ _ _ (Ne.symm hat)]
        omega
      obtain ⟨h', hloop, hthis, hmem, hout⟩ :=
        ih { h with balances := move h.balances thisA a (T * (inv pid a).tokensOwned / D) }
          hp (fun b hb => hnz b (by simp [hb])) (fun b hb => hnt b (by simp [hb])) hnd' hrest
      dsimp only at hthis hmem hout
      rw [move_src _ _ _ _ (Ne.symm hat)] at hthis
      refine ⟨h', hloop, by omega, ?_, ?_⟩
      · intro b hb
        rcases List.mem_cons.mp hb with rfl | hb'
        · rw [hout b hamem hat, move_dst _ _ _ _ (Ne.symm hat), hsha]
        · rw [hmem b hb', move_other _ _ _ _ _ (hnt b hb) (fun hba => hamem (by rwa [hba] at hb'))]
      · intro x hx hxt
        rw [hout x (fun hc => hx (List.mem_cons_of_mem a hc)) hxt,
          move_other _ _ _ _ _ hxt (fun hxa => hx (hxa ▸ List.mem_cons_self a rest))]
    · have hsha : payoutShare inv pid T D a = 0 := by
        simp [payoutShare, how]
      rw [if_neg how]
      obtain ⟨h', hloop, hthis, hmem, hout⟩ :=
        ih h hp (fun b hb => hnz b (by simp [hb])) (fun b hb => hnt b (by simp [hb])) hnd'
          (by omega)
      refine ⟨h', hloop, by omega, ?_, ?_⟩
      · intro b hb
        rcases List.mem_cons.mp hb with rfl | hb'
        · rw [hout b hamem hat]
          omega
        · exact hmem b hb'
      · intro x hx hxt
        exact hout x (fun hc => hx (List.mem_cons_of_mem a hc)) hxt

/-- C3.  `distributeRentalIncome` pays every indexed investor with a positive
holding exactly `floor(totalIncome * tokensOwned / soldTokens)` where
`soldTokens = totalTokens - availableTokens` (pro-rata over currently sold
shares), pays investors with an empty holding nothing, pays no account more
than once (the index is duplicate-free), and debits the contract by the sum
of the payouts, which is at most `totalIncome`. -/
theorem distributeRentalIncome_pro_rata (s : PTState) (caller pid totalIncome : Nat)
    (hown : caller = s.contractOwner) (hex : pid < s.tokenIdCounter)
    (hpos : 0 < totalIncome)
    (hbal : totalIncome ≤ s.hrm.balances s.thisAddr)
    (hpause : s.hrm.paused = false) (ht0 : s.thisAddr ≠ 0)
    (hnz : ∀ a ∈ s.propertyInvestors pid, a ≠ 0)
    (hnt : ∀ a ∈ s.propertyInvestors pid, a ≠ s.thisAddr)
    (hnd : (s.propertyInvestors pid).Nodup)
    (hD : (s.properties pid).availableTokens < (s.properties pid).totalTokens)
    (hsum : sumOwned s pid ≤
      (s.properties pid).totalTokens - (s.properties pid).availableTokens) :
    ∃ s', distributeRentalIncome s caller pid totalIncome = some s' ∧
      (∀ a ∈ s.propertyInvestors pid, 0 < (s.investments pid a).tokensOwned →
        s'.hrm.balances a = s.hrm.balances a +
          totalIncome * (s.investments pid a).tokensOwned /
            ((s.properties pid).totalTokens - (s.properties pid).availableTokens)) ∧
      (∀ a ∈ s.propertyInvestors pid, (s.investments pid a).tokensOwned = 0 →
        s'.hrm.balances a = s.hrm.balances a) ∧
      s.hrm.balances s.thisAddr ≤ s'.hrm.balances s.thisAddr + totalIncome := by
  have hDpos : 0 < (s.properties pid).totalTokens - (s.properties pid).availableTokens := by omega
  have hple := payoutSum_le_div s.investments pid totalIncome
    ((s.properties pid).totalTokens - (s.properties pid).availableTokens) hDpos
    (s.propertyInvestors pid)
  have hsum_le : payoutSum s.investments pid totalIncome
      ((s.properties pid).totalTokens - (s.properties pid).availableTokens)
      (s.propertyInvestors pid) ≤ totalIncome := by
    refine le_trans hple ?_
    refine le_trans (Nat.div_le_div_right (Nat.mul_le_mul_left _ hsum)) ?_
    rw [Nat.mul_div_cancel _ hDpos]
  obtain ⟨h', hloop, hthis, hmem, -⟩ :=
    distribLoop_spec s.thisAddr pid s.investments totalIncome
      ((s.properties pid).totalTokens - (s.properties pid).availableTokens) hDpos ht0
      (s.propertyInvestors pid) s.hrm hpause hnz hnt hnd (by omega)
  unfold distributeRentalIncome
  dsimp only
  rw [if_neg (by simp [hown]), if_neg (by omega), if_neg (by omega), if_neg (by omega), hloop]
  refine ⟨{ s with hrm := h' }, rfl, ?_, ?_, by dsimp only; omega⟩
  · intro a ha hpos'
    have := hmem a ha
    dsimp only
    rw [this]
    simp [payoutShare, hpos']
  · intro a ha hzero
    have := hmem a ha
    dsimp only
    rw [this]
    simp [payoutShare, hzero]

theorem distributeRentalIncome_pro_rata_witness :
    ∃ s', distributeRentalIncome distState 9 0 1000 = some s' ∧
      s'.hrm.balances 1 = 666 ∧ s'.hrm.balances 2 = 333 := by
  obtain ⟨s', hs, hpay, -, -⟩ := distributeRentalIncome_pro_rata distState 9 0 1000 rfl
    (by decide) (by decide) (by norm_num [distState]) rfl (by decide) (by decide) (by decide)
    (by decide) (by decide) (by decide)
  have h1 := hpay 1 (by decide) (by decide)
  have h2 := hpay 2 (by decide) (by decide)
  norm_num [distState] at h1 h2
  exact ⟨s', hs, h1, h2⟩

theorem map_sum_congr (l : List Nat) (f g : Nat → Nat) (h : ∀ x ∈ l, f x = g x) :
    (l.map f).sum = (l.map g).sum := by
  induction l with
  | nil => rfl
  | cons b rest ih =>
    simp only [List.map_cons, List.sum_cons]
    rw [h b (by simp), ih (fun x hx => h x (by simp [hx]))]

theorem sum_map_update_mem (l : List Nat) (f : Nat → Nat) (a v : Nat)
    (hnd : l.Nodup) (ha : a ∈ l) :
    (l.map (fun x => if x = a then v else f x)).sum + f a = (l.map f).sum + v := by
  induction l with
  | nil => cases ha
  | cons b rest ih =>
    obtain ⟨hbn, hnd'⟩ := List.nodup_cons.mp hnd
    rcases List.mem_cons.mp ha with rfl | hmem
    · simp only [List.map_cons, List.sum_cons]
      simp only [if_true]
      have hcongr : (rest.map (fun x => if x = a then v else f x)).sum = (rest.map f).sum :=
        map_sum_congr rest _ f (fun x hx => if_neg (fun hxa => hbn (by rw [hxa] at hx; exact hx)))
      omega
    · have hb : b ≠ a := fun hba => hbn (by rw [hba]; exact hmem)
      simp only [List.map_cons, List.sum_cons, if_neg hb]
      have := ih hnd' hmem
      omega

theorem nodup_append_singleton (l : List Nat) (a : Nat) (hnd : l.Nodup) (ha : a ∉ l) :
    (l ++ [a]).Nodup := by
  induction l with
  | nil => simp
  | cons b rest ih =>
    obtain ⟨hbn, hnd'⟩ := List.nodup_cons.mp hnd
    refine List.nodup_cons.mpr ⟨?_, ih hnd' (fun hc => ha (List.mem_cons_of_mem b hc))⟩
    intro hb
    rcases List.mem_append.mp hb with hb' | hb'
    · exact hbn hb'
    · exact ha (by rw [← List.mem_singleton.mp hb']; exact List.mem_cons_self b rest)

theorem listProperty_shape (s : PTState) (caller : Nat) (uri : String) (v t : Nat)
    (pt : PropertyType) (r : RiskLevel) (now : Nat) (s' : PTState) (pid : Nat)
    (h : listProperty s caller uri v t pt r now = some (s', pid)) :
    t ≠ 0 ∧ pid = s.tokenIdCounter ∧
    s' = { s with
      tokenIdCounter := s.tokenIdCounter + 1
      properties := setProp s.properties s.tokenIdCounter
        { id := s.tokenIdCounter, metadataURI := uri, totalValue := v
          totalTokens := t, availableTokens := t, tokenPrice := v / t
          propertyOwner := caller, isActive := false, isVerified := false
          createdAt := now, propertyType := pt, riskLevel := r } } := by
  unfold listProperty at h
  dsimp only at h
  split_ifs at h with h1 h2
  injection h with h
  injection h with ha hb
  exact ⟨h2, hb.symm, ha.symm⟩

theorem verifyProperty_shape (s : PTState) (caller pid : Nat) (s' : PTState)
    (h : verifyProperty s caller pid = some s') :
    pid < s.tokenIdCounter ∧
    s' = { s with
      properties := setProp s.properties pid
        { s.properties pid with isVerified := true, isActive := true } } := by
  unfold verifyProperty at h
  split_ifs at h with h1 h2
  exact ⟨by omega, (Option.some.inj h).symm⟩

theorem purchaseTokens_shape (s : PTState) (caller pid tokens now : Nat) (s' : PTState)
    (h : purchaseTokens s caller pid tokens now = some s') :
    pid < s.tokenIdCounter ∧ tokens ≠ 0 ∧
    tokens ≤ (s.properties pid).availableTokens ∧
    ∃ hrm' : ERC20State,
      s' = { s with
        hrm := hrm'
        propertyInvestors := if (s.investments pid caller).investor = 0
          then pushAt s.propertyInvestors pid caller else s.propertyInvestors
        investorProperties := if (s.investments pid caller).investor = 0
          then pushAt s.investorProperties caller pid else s.investorProperties
        investments := setInv s.investments pid caller
          { investor := caller
            tokensOwned := (s.investments pid caller).tokensOwned + tokens
            investmentAmount := (s.investments pid caller).investmentAmount +
              (tokens * (s.properties pid).tokenPrice -
                tokens * (s.properties pid).tokenPrice * s.platformFeePercent / 10000)
            purchaseDate := now }
        properties := setProp s.properties pid
          { s.properties pid with
            availableTokens := (s.properties pid).availableTokens - tokens } } := by
  unfold purchaseTokens at h
  dsimp only at h
  split_ifs at h with h1 h2 h3 h4 h5 h6 hinv
  all_goals (
    rcases htf : erc20TransferFrom s.hrm s.thisAddr caller s.thisAddr
        (tokens * (s.properties pid).tokenPrice) with _ | hh1
    · rw [htf] at h
      exact Option.noConfusion h
    · rw [htf] at h
      dsimp only at h
      rcases ht2 : erc20Transfer hh1 s.thisAddr s.feeRecipient
          (tokens * (s.properties pid).tokenPrice * s.platformFeePercent / 10000) with _ | hh2
      · rw [ht2] at h
        exact Option.noConfusion h
      · rw [ht2] at h
        dsimp only at h
        rcases ht3 : erc20Transfer hh2 s.thisAddr (s.properties pid).propertyOwner
            (tokens * (s.properties pid).tokenPrice -
              tokens * (s.properties pid).tokenPrice * s.platformFeePercent / 10000) with _ | hh3
        · rw [ht3] at h
          exact Option.noConfusion h
        · rw [ht3] at h
          dsimp only at h
          refine ⟨by omega, h3, by omega, hh3, ?_⟩
          rw [← Option.some.inj h]
          simp [hinv])

theorem createSellOrder_shape (s : PTState) (caller pid tfs ppt dur now : Nat)
    (s' : PTState) (oid : Nat)
    (h : createSellOrder s caller pid tfs ppt dur now = some (s', oid)) :
    pid < s.tokenIdCounter ∧ oid = s.sellOrderCounter ∧
    s' = { s with
      sellOrderCounter := s.sellOrderCounter + 1
      sellOrders := setOrder s.sellOrders s.sellOrderCounter
        { id := s.sellOrderCounter, propertyId := pid, seller := caller
          tokensForSale := tfs, pricePerToken := ppt, totalPrice := tfs * ppt
          isActive := true, createdAt := now, expiresAt := now + dur * 86400 }
      propertySellOrders := pushAt s.propertySellOrders pid s.sellOrderCounter
      userSellOrders := pushAt s.userSellOrders caller s.sellOrderCounter } := by
  unfold createSellOrder at h
  dsimp only at h
  split_ifs at h with h1 h2 h3 h4 h5 h6
  injection h with h
  injection h with ha hb
  exact ⟨by omega, hb.symm, ha.symm⟩

theorem buyFromOrder_shape (s : PTState) (caller oid n now : Nat) (s' : PTState)
    (h : buyFromOrder s caller oid n now = some s') :
    (s.sellOrders oid).isActive = true ∧ n ≠ 0 ∧
    caller ≠ (s.sellOrders oid).seller ∧
    n ≤ (s.investments (s.sellOrders oid).propertyId (s.sellOrders oid).seller).tokensOwned ∧
    ∃ hrm' : ERC20State,
      s' = { s with
        hrm := hrm'
        propertyInvestors := if (s.investments (s.sellOrders oid).propertyId caller).investor = 0
          then pushAt s.propertyInvestors (s.sellOrders oid).propertyId caller
          else s.propertyInvestors
        investorProperties := if (s.investments (s.sellOrders oid).propertyId caller).investor = 0
          then pushAt s.investorProperties caller (s.sellOrders oid).propertyId
          else s.investorProperties
        investments := setInv
          (setInv s.investments (s.sellOrders oid).propertyId (s.sellOrders oid).seller
            { s.investments (s.sellOrders oid).propertyId (s.sellOrders oid).seller with
              tokensOwned := (s.investments (s.sellOrders oid).propertyId
                (s.sellOrders oid).seller).tokensOwned - n })
          (s.sellOrders oid).propertyId caller
          { investor := caller
            tokensOwned := (s.investments (s.sellOrders oid).propertyId caller).tokensOwned + n
            investmentAmount :=
              (s.investments (s.sellOrders oid).propertyId caller).investmentAmount +
              (n * (s.sellOrders oid).pricePerToken -
                n * (s.sellOrders oid).pricePerToken * s.platformFeePercent / 10000)
            purchaseDate := now }
        sellOrders := setOrder s.sellOrders oid
          { s.sellOrders oid with
            tokensForSale := (s.sellOrders oid).tokensForSale - n
            isActive := if (s.sellOrders oid).tokensForSale - n = 0 then false
              else (s.sellOrders oid).isActive } } := by
  unfold buyFromOrder at h
  dsimp only at h
  split_ifs at h with h1 h2 h3 h4 h5 h6 h7 hinv
  all_goals (
    rcases htf : erc20TransferFrom s.hrm s.thisAddr caller s.thisAddr
        (n * (s.sellOrders oid).pricePerToken) with _ | hh1
    · rw [htf] at h
      exact Option.noConfusion h
    · rw [htf] at h
      dsimp only at h
      rcases ht2 : erc20Transfer hh1 s.thisAddr s.feeRecipient
          (n * (s.sellOrders oid).pricePerToken * s.platformFeePercent / 10000) with _ | hh2
      · rw [ht2] at h
        exact Option.noConfusion h
      · rw [ht2] at h
        dsimp only at h
        rcases ht3 : erc20Transfer hh2 s.thisAddr (s.sellOrders oid).seller
            (n * (s.sellOrders oid).pricePerToken -
              n * (s.sellOrders oid).pricePerToken * s.platformFeePercent / 10000) with _ | hh3
        · rw [ht3] at h
          exact Option.noConfusion h
        · rw [ht3] at h
          dsimp only at h
          refine ⟨by simpa using h1, h3, h5, by omega, hh3, ?_⟩
          rw [← Option.some.inj h]
          split_ifs <;> simp [hinv])

theorem cancelSellOrder_shape (s : PTState) (caller oid : Nat) (s' : PTState)
    (h : cancelSellOrder s caller oid = some s') :
    s' = { s with
      sellOrders := setOrder s.sellOrders oid
        { s.sellOrders oid with isActive := false } } := by
  unfold cancelSellOrder at h
  dsimp only at h
  split_ifs at h with h1 h2
  exact (Option.some.inj h).symm

theorem sumOwned_congr (s s' : PTState) (pid : Nat)
    (hl : s'.propertyInvestors pid = s.propertyInvestors pid)
    (hf : ∀ a ∈ s.propertyInvestors pid,
      (s'.investments pid a).tokensOwned = (s.investments pid a).tokensOwned) :
    sumOwned s' pid = sumOwned s pid := by
  unfold sumOwned
  rw [hl]
  exact map_sum_congr _ _ _ hf

theorem Inv_extToken (s : PTState) (h : ERC20State) (hi : Inv s) :
    Inv { s with hrm := h } := by
  obtain ⟨f1, f2, f3, nd, mi, zo, co, sp, op⟩ := hi
  exact ⟨f1, f2, f3, nd, mi, zo, co, sp, op⟩

theorem Inv_listProperty (s : PTState) (caller : Nat) (uri : String) (v t : Nat)
    (pt : PropertyType) (r : RiskLevel) (now : Nat) (s' : PTState) (pid : Nat)
    (hi : Inv s) (h : listProperty s caller uri v t pt r now = some (s', pid)) :
    Inv s' := by
  obtain ⟨ht, hpid, rfl⟩ := listProperty_shape s caller uri v t pt r now s' pid h
  refine ⟨?_, ?_, ?_, hi.nodup, hi.memIff, hi.zeroOwned, ?_, ?_, ?_⟩
  · intro q hq
    dsimp only at hq ⊢
    rw [setProp_other _ _ _ _ (by omega)]
    exact hi.fresh_prop q (by omega)
  · intro q hq
    dsimp only at hq
    exact hi.fresh_idx q (by omega)
  · intro q a hq
    dsimp only at hq
    exact hi.fresh_inv q a (by omega)
  · intro q
    dsimp only
    by_cases hq : q = s.tokenIdCounter
    · subst hq
      rw [setProp_same]
      have hidx : s.propertyInvestors s.tokenIdCounter = [] := hi.fresh_idx _ le_rfl
      unfold sumOwned
      dsimp only
      rw [hidx]
      simp
    · rw [setProp_other _ _ _ _ hq]
      have : sumOwned { s with
          tokenIdCounter := s.tokenIdCounter + 1
          properties := setProp s.properties s.tokenIdCounter
            { id := s.tokenIdCounter, metadataURI := uri, totalValue := v
              totalTokens := t, availableTokens := t, tokenPrice := v / t
              propertyOwner := caller, isActive := false, isVerified := false
              createdAt := now, propertyType := pt, riskLevel := r } } q = sumOwned s q :=
        sumOwned_congr _ _ _ rfl (fun a _ => rfl)
      rw [this]
      exact hi.conserve q
  · intro q hne
    dsimp only at hne ⊢
    by_cases hq : q = s.tokenIdCounter
    · subst hq
      exact absurd (hi.fresh_idx _ le_rfl) hne
    · rw [setProp_other _ _ _ _ hq]
      exact hi.soldPos q hne
  · intro o ho
    dsimp only at ho ⊢
    exact lt_trans (hi.orderPid o ho) (by omega)

theorem Inv_verify (s : PTState) (caller pid : Nat) (s' : PTState)
    (hi : Inv s) (h : verifyProperty s caller pid = some s') : Inv s' := by
  obtain ⟨hpid, rfl⟩ := verifyProperty_shape s caller pid s' h
  refine ⟨?_, hi.fresh_idx, hi.fresh_inv, hi.nodup, hi.memIff, hi.zeroOwned, ?_, ?_, ?_⟩
  · intro q hq
    dsimp only at hq ⊢
    rw [setProp_other _ _ _ _ (by omega)]
    exact hi.fresh_prop q (by omega)
  · intro q
    dsimp only
    have hs : sumOwned { s with
        properties := setProp s.properties pid
          { s.properties pid with isVerified := true, isActive := true } } q = sumOwned s q :=
      sumOwned_congr _ _ _ rfl (fun a _ => rfl)
    rw [hs]
    by_cases hq : q = pid
    · subst hq
      rw [setProp_same]
      exact hi.conserve q
    · rw [setProp_other _ _ _ _ hq]
      exact hi.conserve q
  · intro q hne
    dsimp only at hne ⊢
    by_cases hq : q = pid
    · subst hq
      rw [setProp_same]
      exact hi.soldPos q hne
    · rw [setProp_other _ _ _ _ hq]
      exact hi.soldPos q hne
  · exact hi.orderPid

theorem Inv_createOrder (s : PTState) (caller pid tfs ppt dur now : Nat)
    (s' : PTState) (oid : Nat) (hi : Inv s)
    (h : createSellOrder s caller pid tfs ppt dur now = some (s', oid)) : Inv s' := by
  obtain ⟨hpid, hoid, rfl⟩ := createSellOrder_shape s caller pid tfs ppt dur now s' oid h
  refine ⟨hi.fresh_prop, hi.fresh_idx, hi.fresh_inv, hi.nodup, hi.memIff, hi.zeroOwned,
    ?_, hi.soldPos, ?_⟩
  · intro q
    have hs : sumOwned { s with
        sellOrderCounter := s.sellOrderCounter + 1
        sellOrders := setOrder s.sellOrders s.sellOrderCounter
          { id := s.sellOrderCounter, propertyId := pid, seller := caller
            tokensForSale := tfs, pricePerToken := ppt, totalPrice := tfs * ppt
            isActive := true, createdAt := now, expiresAt := now + dur * 86400 }
        propertySellOrders := pushAt s.propertySellOrders pid s.sellOrderCounter
        userSellOrders := pushAt s.userSellOrders caller s.sellOrderCounter } q =
        sumOwned s q :=
      sumOwned_congr _ _ _ rfl (fun a _ => rfl)
    rw [hs]
    exact hi.conserve q
  · intro o ho
    dsimp only at ho ⊢
    by_cases hq : o = s.sellOrderCounter
    · subst hq
      rw [setOrder]
      simpa using hpid
    · unfold setOrder at ho ⊢
      rw [if_neg hq] at ho ⊢
      exact hi.orderPid o ho

theorem Inv_cancelOrder (s : PTState) (caller oid : Nat) (s' : PTState) (hi : Inv s)
    (h : cancelSellOrder s caller oid = some s') : Inv s' := by
  obtain rfl := cancelSellOrder_shape s caller oid s' h
  refine ⟨hi.fresh_prop, hi.fresh_idx, hi.fresh_inv, hi.nodup, hi.memIff, hi.zeroOwned,
    ?_, hi.soldPos, ?_⟩
  · intro q
    have hs : sumOwned { s with
        sellOrders := setOrder s.sellOrders oid
          { s.sellOrders oid with isActive := false } } q = sumOwned s q :=
      sumOwned_congr _ _ _ rfl (fun a _ => rfl)
    rw [hs]
    exact hi.conserve q
  · intro o ho
    dsimp only at ho ⊢
    by_cases hq : o = oid
    · subst hq
      unfold setOrder at ho
      simp at ho
    · unfold setOrder at ho ⊢
      rw [if_neg hq] at ho ⊢
      exact hi.orderPid o ho

theorem Inv_purchase (s : PTState) (caller pid tokens now : Nat) (s' : PTState)
    (hc : caller ≠ 0) (hi : Inv s)
    (h : purchaseTokens s caller pid tokens now = some s') : Inv s' := by
  obtain ⟨hpid, htok, hav, hrm', rfl⟩ := purchaseTokens_shape s caller pid tokens now s' h
  by_cases hinv : (s.investments pid caller).investor = 0
  · simp only [if_pos hinv]
    have hnotin : caller ∉ s.propertyInvestors pid :=
      fun hm => (hi.memIff pid caller).mp hm hinv
    have hzero : (s.investments pid caller).tokensOwned = 0 := hi.zeroOwned pid caller hinv
    refine ⟨?_, ?_, ?_, ?_, ?_, ?_, ?_, ?_, ?_⟩
    · intro q hq
      dsimp only at hq ⊢
      rw [setProp_other _ _ _ _ (by omega)]
      exact hi.fresh_prop q hq
    · intro q hq
      dsimp only at hq ⊢
      unfold pushAt
      rw [if_neg (by omega)]
      exact hi.fresh_idx q hq
    · intro q a hq
      dsimp only at hq ⊢
      unfold setInv
      rw [if_neg (fun hx => absurd hx.1 (by omega))]
      exact hi.fresh_inv q a hq
    · intro q
      dsimp only
      unfold pushAt
      by_cases hq : q = pid
      · subst hq
        rw [if_pos rfl]
        exact nodup_append_singleton _ _ (hi.nodup q) hnotin
      · rw [if_neg hq]
        exact hi.nodup q
    · intro q a
      dsimp only
      unfold pushAt setInv
      by_cases hq : q = pid
      · subst hq
        rw [if_pos rfl]
        by_cases ha : a = caller
        · subst ha
          rw [if_pos ⟨rfl, rfl⟩]
          refine iff_of_true ?_ hc
          exact List.mem_append.mpr (Or.inr (by simp))
        · rw [if_neg (fun hx => ha hx.2), List.mem_append]
          simp only [List.mem_singleton]
          constructor
          · rintro (hm | hm)
            · exact (hi.memIff q a).mp hm
            · exact absurd hm ha
          · intro hv
            exact Or.inl ((hi.memIff q a).mpr hv)
      · rw [if_neg hq, if_neg (fun hx => hq hx.1)]
        exact hi.memIff q a
    · intro q a
      dsimp only
      unfold setInv
      by_cases hqa : q = pid ∧ a = caller
      · rw [if_pos hqa]
        intro hz
        exact absurd hz hc
      · rw [if_neg hqa]
        exact hi.zeroOwned q a
    · intro q
      dsimp only
      by_cases hq : q = pid
      · subst hq
        have hcons := hi.conserve q
        rw [setProp_same]
        unfold sumOwned at hcons ⊢
        dsimp only
        unfold pushAt
        rw [if_pos rfl, List.map_append, List.sum_append,
          map_sum_congr (s.propertyInvestors q) _
            (fun a => (s.investments q a).tokensOwned)
            (fun a ha => by
              unfold setInv
              rw [if_neg (fun hx => hnotin (by rw [← hx.2]; exact ha))])]
        simp only [List.map_cons, List.map_nil, List.sum_cons, List.sum_nil]
        unfold setInv
        rw [if_pos ⟨rfl, rfl⟩]
        dsimp only
        omega
      · have hcons := hi.conserve q
        rw [setProp_other _ _ _ _ hq]
        unfold sumOwned at hcons ⊢
        dsimp only
        unfold pushAt
        rw [if_neg hq,
          map_sum_congr (s.propertyInvestors q) _
            (fun a => (s.investments q a).tokensOwned)
            (fun a _ => by
              unfold setInv
              rw [if_neg (fun hx => hq hx.1)])]
        exact hcons
    · intro q hne
      dsimp only at hne ⊢
      unfold pushAt at hne
      by_cases hq : q = pid
      · subst hq
        have hcons := hi.conserve q
        rw [setProp_same]
        dsimp only
        omega
      · rw [if_neg hq] at hne
        rw [setProp_other _ _ _ _ hq]
        exact hi.soldPos q hne
    · intro o ho
      dsimp only at ho ⊢
      exact hi.orderPid o ho
  · simp only [if_neg hinv]
    have hmem : caller ∈ s.propertyInvestors pid := (hi.memIff pid caller).mpr hinv
    refine ⟨?_, hi.fresh_idx, ?_, hi.nodup, ?_, ?_, ?_, ?_, ?_⟩
    · intro q hq
      dsimp only at hq ⊢
      rw [setProp_other _ _ _ _ (by omega)]
      exact hi.fresh_prop q hq
    · intro q a hq
      dsimp only at hq ⊢
      unfold setInv
      rw [if_neg (fun hx => absurd hx.1 (by omega))]
      exact hi.fresh_inv q a hq
    · intro q a
      dsimp only
      unfold setInv
      by_cases hqa : q = pid ∧ a = caller
      · obtain ⟨rfl, rfl⟩ := hqa
        rw [if_pos ⟨rfl, rfl⟩]
        exact iff_of_true hmem hc
      · rw [if_neg hqa]
        exact hi.memIff q a
    · intro q a
      dsimp only
      unfold setInv
      by_cases hqa : q = pid ∧ a = caller
      · rw [if_pos hqa]
        intro hz
        exact absurd hz hc
      · rw [if_neg hqa]
        exact hi.zeroOwned q a
    · intro q
      dsimp only
      by_cases hq : q = pid
      · subst hq
        have hcons := hi.conserve q
        have hupd := sum_map_update_mem (s.propertyInvestors q)
          (fun a => (s.investments q a).tokensOwned) caller
          ((s.investments q caller).tokensOwned + tokens) (hi.nodup q) hmem
        dsimp only at hupd
        rw [setProp_same]
        unfold sumOwned at hcons ⊢
        dsimp only
        rw [map_sum_congr (s.propertyInvestors q) _
            (fun x => if x = caller then (s.investments q caller).tokensOwned + tokens
              else (s.investments q x).tokensOwned)
            (fun a _ => by
              unfold setInv
              dsimp only
              by_cases hac : a = caller
              · simp [hac]
              · rw [if_neg (fun hx => hac hx.2), if_neg hac])]
        omega
      · have hcons := hi.conserve q
        rw [setProp_other _ _ _ _ hq]
        unfold sumOwned at hcons ⊢
        dsimp only
        rw [map_sum_congr (s.propertyInvestors q) _
            (fun a => (s.investments q a).tokensOwned)
            (fun a _ => by
              unfold setInv
              rw [if_neg (fun hx => hq hx.1)])]
        exact hcons
    · intro q hne
      dsimp only at hne ⊢
      by_cases hq : q = pid
      · subst hq
        have hcons := hi.conserve q
        rw [setProp_same]
        dsimp only
        omega
      · rw [setProp_other _ _ _ _ hq]
        exact hi.soldPos q hne
    · intro o ho
      dsimp only at ho ⊢
      exact hi.orderPid o ho

theorem Inv_buyOrder (s : PTState) (caller oid n now : Nat) (s' : PTState)
    (hc : caller ≠ 0) (hi : Inv s)
    (h : buyFromOrder s caller oid n now = some s') : Inv s' := by
  obtain ⟨hact, hn, hcs, hsh, hrm', rfl⟩ := buyFromOrder_shape s caller oid n now s' h
  set p := (s.sellOrders oid).propertyId with hp_def
  set sel := (s.sellOrders oid).seller with hsel_def
  have hp : p < s.tokenIdCounter := hi.orderPid oid hact
  have hselinv : (s.investments p sel).investor ≠ 0 := by
    intro hz
    have := hi.zeroOwned p sel hz
    omega
  have hselmem : sel ∈ s.propertyInvestors p := (hi.memIff p sel).mpr hselinv
  have hLne : s.propertyInvestors p ≠ [] := List.ne_nil_of_mem hselmem
  by_cases hinv : (s.investments p caller).investor = 0
  · simp only [if_pos hinv]
    have hnotin : caller ∉ s.propertyInvestors p :=
      fun hm => (hi.memIff p caller).mp hm hinv
    have hzero : (s.investments p caller).tokensOwned = 0 := hi.zeroOwned p caller hinv
    refine ⟨hi.fresh_prop, ?_, ?_, ?_, ?_, ?_, ?_, ?_, ?_⟩
    · intro q hq
      dsimp only at hq ⊢
      unfold pushAt
      rw [if_neg (by omega)]
      exact hi.fresh_idx q hq
    · intro q a hq
      dsimp only at hq ⊢
      unfold setInv
      rw [if_neg (fun hx => absurd hx.1 (by omega)),
        if_neg (fun hx => absurd hx.1 (by omega))]
      exact hi.fresh_inv q a hq
    · intro q
      dsimp only
      unfold pushAt
      by_cases hq : q = p
      · subst hq
        rw [if_pos rfl]
        exact nodup_append_singleton _ _ (hi.nodup p) hnotin
      · rw [if_neg hq]
        exact hi.nodup q
    · intro q a
      dsimp only
      unfold pushAt setInv
      by_cases hq : q = p
      · subst hq
        rw [if_pos rfl]
        by_cases ha : a = caller
        · subst ha
          rw [if_pos ⟨rfl, rfl⟩]
          refine iff_of_true ?_ hc
          exact List.mem_append.mpr (Or.inr (by simp))
        · rw [if_neg (fun hx => ha hx.2), List.mem_append]
          simp only [List.mem_singleton]
          have hbase : (a ∈ s.propertyInvestors p ∨ a = caller) ↔
              a ∈ s.propertyInvestors p := by
            constructor
            · rintro (hm | hm)
              · exact hm
              · exact absurd hm ha
            · exact Or.inl
          rw [hbase]
          by_cases has : a = sel
          · rw [if_pos ⟨by trivial, has⟩]
            dsimp only
            rw [has]
            exact hi.memIff p sel
          · rw [if_neg (fun hx => has hx.2)]
            exact hi.memIff p a
      · rw [if_neg hq, if_neg (fun hx => hq hx.1), if_neg (fun hx => hq hx.1)]
        exact hi.memIff q a
    · intro q a
      dsimp only
      unfold setInv
      by_cases hqa : q = p ∧ a = caller
      · rw [if_pos hqa]
        intro hz
        exact absurd hz hc
      · rw [if_neg hqa]
        by_cases hqs : q = p ∧ a = sel
        · rw [if_pos hqs]
          intro hz
          obtain ⟨rfl, rfl⟩ := hqs
          exact absurd hz hselinv
        · rw [if_neg hqs]
          exact hi.zeroOwned q a
    · intro q
      dsimp only
      by_cases hq : q = p
      · subst hq
        have hcons := hi.conserve p
        have hupd := sum_map_update_mem (s.propertyInvestors p)
          (fun a => (s.investments p a).tokensOwned) sel
          ((s.investments p sel).tokensOwned - n) (hi.nodup p) hselmem
        dsimp only at hupd
        unfold sumOwned at hcons ⊢
        dsimp only
        unfold pushAt
        rw [if_pos rfl, List.map_append, List.sum_append,
          map_sum_congr (s.propertyInvestors p) _
            (fun x => if x = sel then (s.investments p sel).tokensOwned - n
              else (s.investments p x).tokensOwned)
            (fun a ha => by
              unfold setInv
              dsimp only
              rw [if_neg (fun hx => hnotin (by rw [← hx.2]; exact ha))]
              by_cases has : a = sel
              · rw [if_pos ⟨rfl, has⟩, if_pos has]
              · rw [if_neg (fun hx => has hx.2), if_neg has])]
        simp only [List.map_cons, List.map_nil, List.sum_cons, List.sum_nil]
        unfold setInv
        rw [if_pos ⟨rfl, rfl⟩]
        dsimp only
        omega
      · have hcons := hi.conserve q
        unfold sumOwned at hcons ⊢
        dsimp only
        unfold pushAt
        rw [if_neg hq,
          map_sum_congr (s.propertyInvestors q) _
            (fun a => (s.investments q a).tokensOwned)
            (fun a _ => by
              unfold setInv
              rw [if_neg (fun hx => hq hx.1), if_neg (fun hx => hq hx.1)])]
        exact hcons
    · intro q hne
      dsimp only at hne ⊢
      unfold pushAt at hne
      by_cases hq : q = p
      · subst hq
        exact hi.soldPos p hLne
      · rw [if_neg hq] at hne
        exact hi.soldPos q hne
    · intro o2 ho2
      dsimp only at ho2 ⊢
      unfold setOrder at ho2 ⊢
      by_cases hq : o2 = oid
      · rw [if_pos hq] at ho2
        rw [if_pos hq]
        dsimp only
        exact hp
      · rw [if_neg hq] at ho2 ⊢
        exact hi.orderPid o2 ho2
  · simp only [if_neg hinv]
    have hmemB : caller ∈ s.propertyInvestors p := (hi.memIff p caller).mpr hinv
    refine ⟨hi.fresh_prop, hi.fresh_idx, ?_, hi.nodup, ?_, ?_, ?_, ?_, ?_⟩
    · intro q a hq
      dsimp only at hq ⊢
      unfold setInv
      rw [if_neg (fun hx => absurd hx.1 (by omega)),
        if_neg (fun hx => absurd hx.1 (by omega))]
      exact hi.fresh_inv q a hq
    · intro q a
      dsimp only
      unfold setInv
      by_cases hqa : q = p ∧ a = caller
      · obtain ⟨rfl, rfl⟩ := hqa
        rw [if_pos ⟨rfl, rfl⟩]
        exact iff_of_true hmemB hc
      · rw [if_neg hqa]
        by_cases hqs : q = p ∧ a = sel
        · obtain ⟨rfl, rfl⟩ := hqs
          rw [if_pos ⟨rfl, rfl⟩]
          exact iff_of_true hselmem hselinv
        · rw [if_neg hqs]
          exact hi.memIff q a
    · intro q a
      dsimp only
      unfold setInv
      by_cases hqa : q = p ∧ a = caller
      · rw [if_pos hqa]
        intro hz
        exact absurd hz hc
      · rw [if_neg hqa]
        by_cases hqs : q = p ∧ a = sel
        · rw [if_pos hqs]
          intro hz
          obtain ⟨rfl, rfl⟩ := hqs
          exact absurd hz hselinv
        · rw [if_neg hqs]
          exact hi.zeroOwned q a
    · intro q
      dsimp only
      by_cases hq : q = p
      · subst hq
        have hcons := hi.conserve p
        have hupd1 := sum_map_update_mem (s.propertyInvestors p)
          (fun a => (s.investments p a).tokensOwned) sel
          ((s.investments p sel).tokensOwned - n) (hi.nodup p) hselmem
        have hupd2 := sum_map_update_mem (s.propertyInvestors p)
          (fun x => if x = sel then (s.investments p sel).tokensOwned - n
            else (s.investments p x).tokensOwned) caller
          ((s.investments p caller).tokensOwned + n) (hi.nodup p) hmemB
        dsimp only at hupd1 hupd2
        rw [if_neg hcs] at hupd2
        unfold sumOwned at hcons ⊢
        dsimp only
        rw [map_sum_congr (s.propertyInvestors p) _
            (fun x => if x = caller then (s.investments p caller).tokensOwned + n
              else if x = sel then (s.investments p sel).tokensOwned - n
                else (s.investments p x).tokensOwned)
            (fun a _ => by
              unfold setInv
              dsimp only
              by_cases hac : a = caller
              · subst hac
                rw [if_pos ⟨rfl, rfl⟩, if_pos rfl]
              · rw [if_neg (fun hx => hac hx.2), if_neg hac]
                by_cases has : a = sel
                · rw [if_pos ⟨rfl, has⟩, if_pos has]
                · rw [if_neg (fun hx => has hx.2), if_neg has])]
        omega
      · have hcons := hi.conserve q
        unfold sumOwned at hcons ⊢
        dsimp only
        rw [map_sum_congr (s.propertyInvestors q) _
            (fun a => (s.investments q a).tokensOwned)
            (fun a _ => by
              unfold setInv
              rw [if_neg (fun hx => hq hx.1), if_neg (fun hx => hq hx.1)])]
        exact hcons
    · intro q hne
      dsimp only at hne ⊢
      exact hi.soldPos q hne
    · intro o2 ho2
      dsimp only at ho2 ⊢
      unfold setOrder at ho2 ⊢
      by_cases hq : o2 = oid
      · rw [if_pos hq] at ho2
        rw [if_pos hq]
        dsimp only
        exact hp
      · rw [if_neg hq] at ho2 ⊢
        exact hi.orderPid o2 ho2

theorem initPT_inv (hrm : ERC20State) (thisA owner feeR : Nat) :
    Inv (initPT hrm thisA owner feeR) := by
  refine ⟨fun pid _ => rfl, fun pid _ => rfl, fun pid a _ => rfl, fun pid => List.nodup_nil,
    ?_, fun pid a _ => rfl, fun pid => rfl, fun pid hne => absurd rfl hne, ?_⟩
  · intro pid a
    exact iff_of_false (List.not_mem_nil a) (fun hh => hh rfl)
  · intro oid ho
    exact absurd ho (by simp [initPT, defaultSellOrder])

/-- Every reachable state satisfies the bookkeeping invariant. -/
theorem reach_inv : ∀ s, Reach s → Inv s := by
  intro s hs
  induction hs with
  | init hrm thisA owner feeR => exact initPT_inv hrm thisA owner feeR
  | extToken s h _ ih => exact Inv_extToken s h ih
  | listProp s caller uri v t pt r now s' pid _ hc0 hop ih =>
    exact Inv_listProperty s caller uri v t pt r now s' pid ih hop
  | verify s caller pid s' _ hop ih => exact Inv_verify s caller pid s' ih hop
  | purchase s caller pid tokens now s' _ hc0 hop ih =>
    exact Inv_purchase s caller pid tokens now s' hc0 ih hop
  | createOrder s caller pid tfs ppt dur now s' oid _ hc0 hop ih =>
    exact Inv_createOrder s caller pid tfs ppt dur now s' oid ih hop
  | buyOrder s caller oid n now s' _ hc0 hop ih =>
    exact Inv_buyOrder s caller oid n now s' hc0 ih hop
  | cancelOrder s caller oid s' _ hop ih => exact Inv_cancelOrder s caller oid s' ih hop

/-- C9.  Share conservation: in every reachable state and for every property,
accounts outside the investor index hold no shares, the index is
duplicate-free (so summing over it is summing over all accounts, each once),
and the indexed holdings sum to exactly `totalTokens - availableTokens`
(stated additively: `sum + availableTokens = totalTokens`).  The proof is by
induction over the six operations: listing and verification create or flip a
property without touching holdings, order creation and cancellation change no
holding and no `availableTokens`, a purchase adds `tokens` to exactly one
holding while decrementing `availableTokens` by the same amount, and a
fulfilment moves shares from the seller's holding to the buyer's without
changing `availableTokens`. -/
theorem share_conservation (s : PTState) (hs : Reach s) (pid : Nat) :
    (∀ a, a ∉ s.propertyInvestors pid → (s.investments pid a).tokensOwned = 0) ∧
    (s.propertyInvestors pid).Nodup ∧
    sumOwned s pid + (s.properties pid).availableTokens = (s.properties pid).totalTokens := by
  have hi := reach_inv s hs
  refine ⟨fun a ha => hi.zeroOwned pid a ?_, hi.nodup pid, hi.conserve pid⟩
  by_contra hz
  exact ha ((hi.memIff pid a).mpr hz)

/-- C10.  In every reachable state, a property's investor index is non-empty
only if at least one of its shares has been sold, i.e.
`availableTokens < totalTokens`; hence the divisor
`totalTokens - availableTokens` used by `distributeRentalIncome` inside its
investor loop is nonzero whenever that loop has a body to run — and with an
empty index the loop body is never entered at all. -/
theorem investor_index_nonempty_implies_sold (s : PTState) (hs : Reach s) (pid : Nat)
    (hne : s.propertyInvestors pid ≠ []) :
    (s.properties pid).availableTokens < (s.properties pid).totalTokens :=
  (reach_inv s hs).soldPos pid hne

theorem chain1_eq : listProperty chain0 2 "uri" (10 ^ 20) 100 PropertyType.Residential
    RiskLevel.Low 0 = some (chain1, 0) := rfl

theorem chain2_eq : verifyProperty chain1 9 0 = some chain2 := rfl

theorem chain3_eq : purchaseTokens chain2 1 0 100 0 = some chain3 := rfl

theorem chain3_reach : Reach chain3 :=
  Reach.purchase chain2 1 0 100 0 chain3
    (Reach.verify chain1 9 0 chain2
      (Reach.listProp chain0 2 "uri" (10 ^ 20) 100 PropertyType.Residential
        RiskLevel.Low 0 chain1 0 (Reach.init chainHRM 5 9 7) (by decide) chain1_eq)
      chain2_eq)
    (by decide) chain3_eq

theorem share_conservation_witness :
    (∀ a, a ∉ chain3.propertyInvestors 0 → (chain3.investments 0 a).tokensOwned = 0) ∧
    (chain3.propertyInvestors 0).Nodup ∧
    sumOwned chain3 0 + (chain3.properties 0).availableTokens =
      (chain3.properties 0).totalTokens :=
  share_conservation chain3 chain3_reach 0

theorem investor_index_nonempty_implies_sold_witness :
    chain3.propertyInvestors 0 ≠ [] ∧
    (chain3.properties 0).availableTokens < (chain3.properties 0).totalTokens :=
  ⟨by decide, investor_index_nonempty_implies_sold chain3 chain3_reach 0 (by decide)⟩

end RendaHomes
